import Mathlib

/-!
# hapserver: setup-URI encoder and debounced restart controller

A shallow embedding of `server.go` (package `hapserver`).

* Go strings are byte sequences: `GoString` is a list of bytes, a byte is a
  `Fin 256`.
* `uint64` arithmetic is arithmetic on `Nat` reduced modulo `2 ^ 64` where the
  Go operation can wrap.
* The standard-library functions used by `SetupURI` (`strconv.ParseUint`,
  `strconv.FormatUint`, `strings.ToUpper`, `make`) are transcribed from the Go
  standard library, specialised to the arguments `SetupURI` passes.
* `DynamicServer.Run` is a loop around a three-way `select`; it is embedded
  as a function handling one event, with the effects on the outside world
  (contexts cancelled, accept loops started) recorded in a log.
-/

set_option maxRecDepth 8192

namespace Hapserver

/-! ## Strings -/

/-- A byte. -/
abbrev Byte := Fin 256

/-- A Go string: a sequence of bytes. -/
abbrev GoString := List Byte

/-- The bytes of an ASCII literal. -/
def str (s : String) : GoString :=
  s.toList.map (fun ch => Fin.ofNat ch.toNat)

/-! ## `strconv.ParseUint(s, 10, 64)` -/

/-- The two errors of package `strconv`. -/
inductive NumError where
  | ErrSyntax
  | ErrRange
  deriving DecidableEq, Repr

/-- The largest `uint64`. -/
def maxUint64 : Nat := 2 ^ 64 - 1

/-- The function `lower` of `strconv`: `c | ('x' - 'X')`. -/
def lower (c : Byte) : Nat := c.val ||| (120 - 88)

/-- The digit value `strconv.ParseUint` assigns to a byte, `none` for the
`default` branch of its `switch` (base 10: the underscore branch needs
`base == 0` and is never taken). -/
def digitVal (c : Byte) : Option Nat :=
  if 48 ≤ c.val ∧ c.val ≤ 57 then some (c.val - 48)
  else if 97 ≤ lower c ∧ lower c ≤ 122 then some (lower c - 97 + 10)
  else none

/-- The loop `for _, c := range []byte(s)` of `strconv.ParseUint` with
`base = 10` and `bitSize = 64`; `n` is the value accumulated so far. The
result is the pair `(value, err)` the function returns. -/
def parseUintLoop : GoString → Nat → Nat × Option NumError
  | [], n => (n, none)
  | c :: cs, n =>
    match digitVal c with
    | none => (0, some .ErrSyntax)
    | some d =>
      if d ≥ 10 then (0, some .ErrSyntax)
      else if n ≥ maxUint64 / 10 + 1 then (maxUint64, some .ErrRange)
      else
        let n10 := (n * 10) % 2 ^ 64
        let n1 := (n10 + d) % 2 ^ 64
        if n1 < n10 ∨ n1 > maxUint64 then (maxUint64, some .ErrRange)
        else parseUintLoop cs n1

/-- The call `strconv.ParseUint(s, 10, 64)`. -/
def ParseUint (s : GoString) : Nat × Option NumError :=
  if s = [] then (0, some .ErrSyntax) else parseUintLoop s 0

/-! ## `strconv.FormatUint(i, base)` -/

/-- The constant `digits` of `strconv`. -/
def digits : GoString := str "0123456789abcdefghijklmnopqrstuvwxyz"

/-- The byte `digits[i]`. -/
def digitAt (i : Nat) : Byte := digits.getD i 0

/-- The general case of `strconv.formatBits`: the loop `for u >= b` writing
the buffer `a` from its end, then the last digit. The buffer has `64 + 1`
bytes, so the loop body runs at most 64 times (`fuel`). -/
def formatBits (base : Nat) : Nat → Nat → GoString → GoString
  | 0, u, a => digitAt u :: a
  | fuel + 1, u, a =>
    if u ≥ base then
      let q := u / base
      formatBits base fuel q (digitAt (u - q * base) :: a)
    else digitAt u :: a

/-- The call `strconv.FormatUint(i, base)` for a base that is neither 10 nor
a power of two. -/
def FormatUint (i : Nat) (base : Nat) : GoString :=
  formatBits base 64 i []

/-! ## `strings.ToUpper` on ASCII strings -/

/-- One byte of the ASCII path of `strings.ToUpper`:
`if 'a' <= c && c <= 'z' then c -= 'a' - 'A'`. -/
def upperByte (c : Byte) : Byte :=
  if 97 ≤ c.val ∧ c.val ≤ 122 then Fin.ofNat (c.val - (97 - 65)) else c

/-- The call `strings.ToUpper(s)` for a string of ASCII bytes (the output of
`strconv.FormatUint` is one). -/
def ToUpper (s : GoString) : GoString := s.map upperByte

/-! ## `SetupURI` -/

/-- The call `make([]byte, n)` followed by `for i := range pad { pad[i] = '0' }`;
`make` panics on a negative length (`none`). -/
def makePad (n : Int) : Option GoString :=
  if n < 0 then none else some (List.replicate n.toNat 48)

/-- Lines 154-173 of `server.go`: the 64-bit value packed by `SetupURI`. -/
def packValue (accessoryType : Byte) (pin : GoString) : Nat :=
  let r := ParseUint pin
  let pinNum := if r.2 ≠ none then 0 else r.1
  let reserved := 0
  let flags := 2
  let version := 0
  let value := 0 ||| (version &&& 0x7)
  let value := (value <<< 4) % 2 ^ 64
  let value := value ||| (reserved &&& 0xf)
  let value := (value <<< 8) % 2 ^ 64
  let value := value ||| (accessoryType.val &&& 0xff)
  let value := (value <<< 4) % 2 ^ 64
  let value := value ||| (flags &&& 0xf)
  let value := (value <<< 27) % 2 ^ 64
  let value := value ||| (pinNum &&& 0x7fffffff)
  value

/-- Lines 175-182 of `server.go`: the base-36 rendering of the packed value,
left-padded with `'0'`; `none` when `make` panics. -/
def paddedOf (value : Nat) : Option GoString :=
  let padded := ToUpper (FormatUint value 36)
  if padded.length ≠ 9 then
    match makePad (9 - (padded.length : Int)) with
    | none => none
    | some pad => some (pad ++ padded)
  else some padded

/-- The function `SetupURI` of `server.go`; `none` stands for a run-time
panic. -/
def SetupURI (accessoryType : Byte) (setupId pin : GoString) : Option GoString :=
  match paddedOf (packValue accessoryType pin) with
  | none => none
  | some padded => some (str "X-HM://" ++ padded ++ setupId)

/-! ## Vocabulary of the claims about `SetupURI` -/

/-- A decimal digit `'0'..'9'`. -/
def isDigit (b : Byte) : Prop := 48 ≤ b.val ∧ b.val ≤ 57

instance (b : Byte) : Decidable (isDigit b) := by
  unfold isDigit; infer_instance

/-- The number a string of decimal digits denotes. -/
def decVal (s : GoString) : Nat :=
  s.foldl (fun n b => 10 * n + (b.val - 48)) 0

/-- An uppercase base-36 digit: `'0'..'9'` or `'A'..'Z'`. -/
def isUpperBase36 (b : Byte) : Prop :=
  (48 ≤ b.val ∧ b.val ≤ 57) ∨ (65 ≤ b.val ∧ b.val ≤ 90)

instance (b : Byte) : Decidable (isUpperBase36 b) := by
  unfold isUpperBase36; infer_instance

/-- The value of an uppercase base-36 digit. -/
def base36Val (b : Byte) : Nat :=
  if b.val ≤ 57 then b.val - 48 else b.val - 55

/-- A string of uppercase base-36 digits read as a number, most significant
digit first. -/
def readBase36 (s : GoString) : Nat :=
  s.foldl (fun n b => n * 36 + base36Val b) 0

/-- The 9 bytes that follow the 7-byte prefix of a setup URI. -/
def payloadOf (uri : GoString) : GoString := (uri.drop 7).take 9

/-- Bits 27..30 of a packed value: the 4-bit field directly above the 27-bit
PIN field. -/
def flagsField (value : Nat) : Nat := (value >>> 27) &&& 0xf

/-! ## `DynamicServer.Run` -/

/-- The fields of `DynamicServer` that `Run` reads or writes; `Acc` stands
for `*accessory.A`, `BridgeType` for `s.Bridge.Type`. `DebounceDuration` is a
`time.Duration`, a signed integer. -/
structure DynamicServer (Acc : Type) where
  Pin : GoString
  SetupId : GoString
  BridgeType : Byte
  DebounceDuration : Int
  as : List Acc

/-- A server built by `hap.NewServer` and handed to
`go srv.ListenAndServe(ctx)`: the context it serves under (contexts are
numbered in the order `context.WithCancel` creates them), the accessories it
was built from and the identity `Run` injected into it. -/
structure Instance (Acc : Type) where
  ctx : Nat
  accessories : List Acc
  SetupId : GoString
  Pin : GoString

/-- What `Run` does to the outside world. -/
inductive Effect (Acc : Type) where
  /-- The statement `go srv.ListenAndServe(ctx)`. -/
  | start (srv : Instance Acc)
  /-- A call of the cancel function of context `ctx`. -/
  | cancel (ctx : Nat)

/-- The three cases of the `select` in `Run`. -/
inductive Event (Acc : Type) where
  /-- The case `<-ctx.Done()`. -/
  | cancel
  /-- The case `<-timer.C`. -/
  | timerFire
  /-- The case `evt := <-s.update`, delivering the copy `SetAccessories` sent. -/
  | submit (accessories : List Acc)

/-- The state of `Run` between two iterations of its loop.

* `s`: the receiver;
* `stopServer`: the local of that name, `none` for `nil`, `some k` for the
  cancel function of context `k`;
* `timer`: the deadline of the timer, `none` when it is stopped;
* `contexts`: how many contexts `context.WithCancel` has created;
* `log`: the effects so far, oldest first;
* `ret`: `none` while the loop runs, `some none` after `return nil`,
  `some (some e)` after `return e`. -/
structure RunState (Acc Err : Type) where
  s : DynamicServer Acc
  stopServer : Option Nat
  timer : Option Int
  contexts : Nat
  log : List (Effect Acc)
  ret : Option (Option Err)

/-- The effect of one action on the set of serving instances: a started
instance serves until its context is cancelled. -/
def applyEffect {Acc : Type} (live : List (Instance Acc)) : Effect Acc → List (Instance Acc)
  | .start srv => live ++ [srv]
  | .cancel k => live.filter (fun i => decide (i.ctx ≠ k))

/-- The instances started and not yet stopped after a log of effects. -/
def alive {Acc : Type} (log : List (Effect Acc)) : List (Instance Acc) :=
  log.foldl applyEffect []

/-- Lines 70-78: the state on entry to the loop, for the receiver `s` as it
is after lines 62-68 have resolved `SetupId` and `Pin`. Both branches of the
`if` create a timer and stop it at once. -/
def loopEntry {Acc Err : Type} (s : DynamicServer Acc) : RunState Acc Err :=
  { s := s, stopServer := none, timer := none, contexts := 0, log := [], ret := none }

/-- Lines 82-85, 88-91 and 121-124:
`if stopServer != nil { stopServer(); stopServer = nil }`. -/
def stopRunning {Acc Err : Type} (st : RunState Acc Err) : RunState Acc Err :=
  match st.stopServer with
  | some k => { st with log := st.log ++ [.cancel k], stopServer := none }
  | none => st

/-- Lines 94-113 and 126-147 (the same statements, log messages apart): derive
a context, build the server, on error cancel the context and return the
error, otherwise inject the identity, keep the cancel function, start the
accept loop and stop the timer. `NewServer k as` is the outcome of the call of
`hap.NewServer` made for context `k` with accessories `as`: `none` for
success, `some e` for the error `e`. -/
def startServer {Acc Err : Type} (NewServer : Nat → List Acc → Option Err)
    (st : RunState Acc Err) : RunState Acc Err :=
  let k := st.contexts
  let st := { st with contexts := st.contexts + 1 }
  let args := if st.s.as.length = 0 then [] else st.s.as
  match NewServer k args with
  | some err => { st with log := st.log ++ [.cancel k], ret := some (some err) }
  | none =>
    let srv : Instance Acc :=
      { ctx := k, accessories := args, SetupId := st.s.SetupId, Pin := st.s.Pin }
    { st with stopServer := some k, log := st.log ++ [.start srv], timer := none }

/-- The body of the `select` case chosen for an event handled at time `now`. -/
def handle {Acc Err : Type} (NewServer : Nat → List Acc → Option Err) (now : Int)
    (st : RunState Acc Err) : Event Acc → RunState Acc Err
  | .cancel => { stopRunning st with ret := some none }
  | .timerFire => startServer NewServer (stopRunning st)
  | .submit accessories =>
    let st := { st with s := { st.s with as := accessories } }
    if st.s.DebounceDuration > 0 ∧ st.stopServer ≠ none then
      { st with timer := some (now + st.s.DebounceDuration) }
    else startServer NewServer (stopRunning st)

/-- One iteration of the loop of `Run`; once `Run` has returned nothing more
happens. -/
def step {Acc Err : Type} (NewServer : Nat → List Acc → Option Err) (now : Int)
    (st : RunState Acc Err) (e : Event Acc) : RunState Acc Err :=
  if st.ret.isSome then st else handle NewServer now st e

/-- The loop of `Run` over a sequence of events, each with the time at which
it is handled. -/
def runEvents {Acc Err : Type} (NewServer : Nat → List Acc → Option Err)
    (st : RunState Acc Err) (evs : List (Int × Event Acc)) : RunState Acc Err :=
  evs.foldl (fun st te => step NewServer te.1 st te.2) st

/-- The submissions of the configurations `cs`, each with its time. -/
def submissions {Acc : Type} (cs : List (Int × List Acc)) : List (Int × Event Acc) :=
  cs.map (fun p => (p.1, Event.submit p.2))

/-- The log of a run of immediate restarts: each submission stops the
instance running (context `running`, if any) and starts one under the next
context `k`. -/
def immediateLog {Acc : Type} (setupId pin : GoString) :
    Option Nat → Nat → List (List Acc) → List (Effect Acc)
  | _, _, [] => []
  | running, k, c :: cs =>
    (running.toList.map Effect.cancel ++ [Effect.start ⟨k, c, setupId, pin⟩]) ++
      immediateLog setupId pin (some k) (k + 1) cs

/-- The handle `stopServer` and the world agree: either the handle is `nil`
and no instance serves, or it cancels the context of the one instance that
serves. -/
def Consistent {Acc Err : Type} (st : RunState Acc Err) : Prop :=
  (st.stopServer = none ∧ alive st.log = []) ∨
    (∃ srv : Instance Acc, st.stopServer = some srv.ctx ∧ alive st.log = [srv])

/-- Every start in the log happens when no instance serves. -/
def StartsClean {Acc : Type} (log : List (Effect Acc)) : Prop :=
  ∀ pre srv post, log = pre ++ Effect.start srv :: post → alive pre = []

/-- The accessory lists of the starts in a log, oldest first. -/
def startsOf {Acc : Type} (log : List (Effect Acc)) : List (List Acc) :=
  log.filterMap (fun e =>
    match e with
    | .start srv => some srv.accessories
    | .cancel _ => none)

/-- The accessories with which handling event `e` in state `st` calls
`hap.NewServer`: those of the receiver on a timer fire, the submitted ones on a
submission that is not debounced; `none` when the event makes no such call. -/
def startConfig {Acc Err : Type} (st : RunState Acc Err) : Event Acc → Option (List Acc)
  | .cancel => none
  | .timerFire => some st.s.as
  | .submit accessories =>
    if st.s.DebounceDuration > 0 ∧ st.stopServer ≠ none then none else some accessories

/-- The invariant of the loop of `Run` for the identity `setupId`, `pin`:
the handle and the world agree; the receiver keeps the identity and every
instance started carries it; while the loop runs an armed timer means a
positive debounce duration and a running instance; with the timer stopped
every serving instance was built from the current accessories. -/
def LoopInv {Acc Err : Type} (setupId pin : GoString) (st : RunState Acc Err) : Prop :=
  Consistent st ∧ st.s.SetupId = setupId ∧ st.s.Pin = pin ∧
    (∀ srv, Effect.start srv ∈ st.log → srv.SetupId = setupId ∧ srv.Pin = pin) ∧
    (st.ret = none → st.timer ≠ none → 0 < st.s.DebounceDuration ∧ st.stopServer ≠ none) ∧
    (st.timer = none → ∀ srv ∈ alive st.log, srv.accessories = st.s.as)

/-- The timer is due at time `now`: it is armed and its deadline has come.
Only then can the case `<-timer.C` be chosen. -/
def timerDue {Acc Err : Type} (st : RunState Acc Err) (now : Int) : Prop :=
  ∃ d, st.timer = some d ∧ d ≤ now

/-! ## `fmt.Sprintf("%04x", n)` and `fmt.Sprintf("%08d", n)` -/

/-- The function `fmtInteger` of package `fmt` for a non-negative integer `u`
printed with the zero flag and width `prec`: the digits of `u` in the base,
written from the end of the buffer (the same digits as `strconv.formatBits`
writes, lowercase for base 16), then the loop
`for i > 0 && prec > len(buf)-i { i--; buf[i] = '0' }`. -/
def fmtInteger (u base prec : Nat) : GoString :=
  let buf := formatBits base 64 u []
  List.replicate (prec - buf.length) 48 ++ buf

/-- The call `fmt.Sprintf("%04x", n)` for `n ≥ 0`. -/
def Sprintf04x (n : Nat) : GoString := fmtInteger n 16 4

/-- The call `fmt.Sprintf("%08d", n)` for `n ≥ 0`. -/
def Sprintf08d (n : Nat) : GoString := fmtInteger n 10 8

/-! ## `DynamicServer.SetupUri` and the prologue of `Run` -/

/-- Lines 50-56 of `SetupUri` and, word for word, lines 62-68 of `Run`: an
empty `SetupId` is replaced by `strings.ToUpper(fmt.Sprintf("%04x", r))` and an
empty `Pin` by `fmt.Sprintf("%08d", q)`, where `r` is what `rand.Intn(0xffff)`
returns if it is called and `q` what `rand.Intn(99999999)` returns if it is
called. -/
def resolveIdentity {Acc : Type} (s : DynamicServer Acc) (r q : Nat) : DynamicServer Acc :=
  let s := if s.SetupId = [] then { s with SetupId := ToUpper (Sprintf04x r) } else s
  let s := if s.Pin = [] then { s with Pin := Sprintf08d q } else s
  s

/-- The method `SetupUri`: the receiver after the call and the string
returned (`none` for a panic of `SetupURI`). -/
def SetupUri {Acc : Type} (s : DynamicServer Acc) (r q : Nat) :
    DynamicServer Acc × Option GoString :=
  let s := resolveIdentity s r q
  (s, SetupURI s.BridgeType s.SetupId s.Pin)

/-- The method `Run` up to the events `evs`: the prologue, the entry to the
loop, the loop. -/
def Run {Acc Err : Type} (NewServer : Nat → List Acc → Option Err)
    (s : DynamicServer Acc) (r q : Nat) (evs : List (Int × Event Acc)) : RunState Acc Err :=
  runEvents NewServer (loopEntry (resolveIdentity s r q)) evs

/-- An uppercase hexadecimal digit: `'0'..'9'` or `'A'..'F'`. -/
def isUpperHex (b : Byte) : Prop :=
  (48 ≤ b.val ∧ b.val ≤ 57) ∨ (65 ≤ b.val ∧ b.val ≤ 70)

instance (b : Byte) : Decidable (isUpperHex b) := by
  unfold isUpperHex; infer_instance

/-- A server whose identity the caller left empty. -/
def blankServer : DynamicServer Nat :=
  { Pin := [], SetupId := [], BridgeType := 2, DebounceDuration := 5, as := [] }

/-- A factory that fails with error 7 at its second call and succeeds
otherwise. -/
def failsSecond : Nat → List Nat → Option Nat := fun k _ => if k = 1 then some 7 else none

/-- A server with debounce duration `d`, used to instantiate the theorems. -/
def sampleServer (d : Int) : DynamicServer Nat :=
  { Pin := str "00102003", SetupId := str "ABCD", BridgeType := 2,
    DebounceDuration := d, as := [] }

/-- A factory that always succeeds. -/
def alwaysOk : Nat → List Nat → Option Unit := fun _ _ => none

/-- The state after the first submission `[1]` at time 0 to a server with
debounce duration 5: one instance runs, under context 0. -/
def sampleRunning : RunState Nat Unit :=
  runEvents alwaysOk (loopEntry (sampleServer 5)) (submissions [(0, [1])])

/-! ## Base-36 digits, for the proofs -/

/-- The base-36 digit values of a number, most significant first: what
`strconv.FormatUint(u, 36)` writes, as numbers. -/
def render (u : Nat) : List Nat :=
  if u = 0 then [0] else (Nat.digits 36 u).reverse

/-- The digit values of a number in base `b`, most significant first: what
`formatBits` writes, as numbers. -/
def renderBase (b u : Nat) : List Nat :=
  if u = 0 then [0] else (Nat.digits b u).reverse

/-- The digits of `render` as uppercase bytes. -/
def upperDigits (u : Nat) : GoString := (render u).map (fun d => upperByte (digitAt d))

/-! ## Lemmas: the packed value -/

/-- The packed value in closed form: category and flags above bit 27, or-ed
with the numeric PIN (zero on a parse error) reduced modulo `2 ^ 31`. -/
theorem packValue_eq (c : Byte) (pin : GoString) :
    packValue c pin =
      (2 ^ 27 * (c.val * 16 + 2)) |||
        ((if (ParseUint pin).2 ≠ none then 0 else (ParseUint pin).1) % 2 ^ 31) := by
  have hc : c.val < 256 := c.isLt
  have h255 : (0xff : Nat) = 2 ^ 8 - 1 := by norm_num
  have hmask : (0x7fffffff : Nat) = 2 ^ 31 - 1 := by norm_num
  have h1 : c.val &&& 0xff = c.val := by
    rw [h255, Nat.and_pow_two_sub_one_eq_mod]; omega
  have h2 : (c.val <<< 4) % 2 ^ 64 = 2 ^ 4 * c.val := by
    rw [Nat.shiftLeft_eq]; omega
  have h3 : (2 : Nat) &&& 0xf = 2 := by decide
  have h4 : 2 ^ 4 * c.val ||| 2 = c.val * 16 + 2 := by
    rw [← Nat.mul_add_lt_is_or (by norm_num) c.val]; omega
  have h5 : ((c.val * 16 + 2) <<< 27) % 2 ^ 64 = 2 ^ 27 * (c.val * 16 + 2) := by
    rw [Nat.shiftLeft_eq]; omega
  unfold packValue
  simp only [Nat.zero_and, Nat.zero_or, Nat.zero_shiftLeft, Nat.zero_mod, Nat.or_zero,
    h1, h2, h3, h4, h5]
  rw [hmask, Nat.and_pow_two_sub_one_eq_mod]

/-! ## Lemmas: base-36 rendering -/

theorem formatBits_eq_render (fuel : Nat) :
    ∀ (u : Nat) (a : GoString), u < 36 ^ (fuel + 1) →
      formatBits 36 fuel u a = (render u).map digitAt ++ a := by
  induction fuel with
  | zero =>
    intro u a hu
    have hu36 : u < 36 := by simpa using hu
    rcases Nat.eq_zero_or_pos u with h0 | hpos
    · subst h0; simp [formatBits, render]
    · simp [formatBits, render, Nat.pos_iff_ne_zero.mp hpos,
        Nat.digits_of_lt 36 u (Nat.pos_iff_ne_zero.mp hpos) hu36]
  | succ fuel ih =>
    intro u a hu
    by_cases hge : u ≥ 36
    · have hq : u / 36 < 36 ^ (fuel + 1) := by
        rw [Nat.div_lt_iff_lt_mul (by norm_num)]
        calc u < 36 ^ (fuel + 1 + 1) := hu
          _ = 36 ^ (fuel + 1) * 36 := by ring
      have hqpos : 0 < u / 36 := Nat.div_pos hge (by norm_num)
      have hupos : 0 < u := by omega
      have hmod : u - u / 36 * 36 = u % 36 := by omega
      rw [formatBits, if_pos hge]
      simp only []
      rw [ih (u / 36) _ hq, hmod]
      simp [render, Nat.pos_iff_ne_zero.mp hqpos, Nat.pos_iff_ne_zero.mp hupos,
        Nat.digits_def' (by norm_num : 1 < 36) hupos]
    · have hu36 : u < 36 := by omega
      rw [formatBits, if_neg hge]
      rcases Nat.eq_zero_or_pos u with h0 | hpos
      · subst h0; simp [render]
      · simp [render, Nat.pos_iff_ne_zero.mp hpos,
          Nat.digits_of_lt 36 u (Nat.pos_iff_ne_zero.mp hpos) hu36]

theorem render_lt (u d : Nat) (h : d ∈ render u) : d < 36 := by
  unfold render at h
  split at h
  · simp at h; omega
  · exact Nat.digits_lt_base (by norm_num) (List.mem_reverse.mp h)

theorem render_length_le (u : Nat) (hu : u < 36 ^ 9) : (render u).length ≤ 9 := by
  unfold render
  split
  · simp
  · rename_i h0
    have h1 := Nat.base_pow_length_digits_le 36 u (by norm_num) h0
    have h2 : 36 ^ (Nat.digits 36 u).length < 36 ^ 10 := by
      calc 36 ^ (Nat.digits 36 u).length ≤ 36 * u := h1
        _ < 36 ^ 10 := by omega
    have h3 := (Nat.pow_lt_pow_iff_right (by norm_num : 1 < 36)).mp h2
    simp only [List.length_reverse]
    omega

theorem ofDigits_render (u : Nat) : Nat.ofDigits 36 (render u).reverse = u := by
  unfold render
  split
  · rename_i h0; subst h0; simp
  · simp [Nat.ofDigits_digits]

theorem upper_digitAt (d : Nat) (h : d < 36) :
    isUpperBase36 (upperByte (digitAt d)) ∧ base36Val (upperByte (digitAt d)) = d := by
  have key : ∀ i : Fin 36,
      isUpperBase36 (upperByte (digitAt i.val)) ∧ base36Val (upperByte (digitAt i.val)) = i.val := by
    decide
  exact key ⟨d, h⟩

theorem ToUpper_FormatUint (u : Nat) (hu : u < 36 ^ 9) :
    ToUpper (FormatUint u 36) = upperDigits u := by
  have h : u < 36 ^ (64 + 1) :=
    lt_of_lt_of_le hu (Nat.pow_le_pow_right (by norm_num) (by norm_num))
  unfold ToUpper FormatUint upperDigits
  rw [formatBits_eq_render 64 u [] h]
  simp [List.map_map, Function.comp_def]

theorem upperDigits_length_le (u : Nat) (hu : u < 36 ^ 9) : (upperDigits u).length ≤ 9 := by
  unfold upperDigits
  simpa using render_length_le u hu

theorem paddedOf_eq (u : Nat) (hu : u < 36 ^ 9) :
    paddedOf u = some (List.replicate (9 - (upperDigits u).length) 48 ++ upperDigits u) := by
  have hlen := upperDigits_length_le u hu
  unfold paddedOf
  simp only [ToUpper_FormatUint u hu]
  by_cases h9 : (upperDigits u).length = 9
  · simp [h9]
  · have hnn : ¬ ((9 : Int) - ((upperDigits u).length : Int) < 0) := by omega
    have hto : ((9 : Int) - ((upperDigits u).length : Int)).toNat = 9 - (upperDigits u).length := by
      omega
    simp [h9, makePad, hnn, hto]

theorem packValue_lt (c : Byte) (pin : GoString) : packValue c pin < 2 ^ 39 := by
  rw [packValue_eq]
  have hc : c.val < 256 := c.isLt
  apply Nat.or_lt_two_pow
  · omega
  · exact lt_of_lt_of_le (Nat.mod_lt _ (by norm_num)) (by norm_num)

theorem packValue_lt_pow36 (c : Byte) (pin : GoString) : packValue c pin < 36 ^ 9 :=
  lt_of_lt_of_le (packValue_lt c pin) (by norm_num)

theorem SetupURI_eq (c : Byte) (setupId pin : GoString) :
    SetupURI c setupId pin =
      some (str "X-HM://" ++
        (List.replicate (9 - (upperDigits (packValue c pin)).length) 48 ++
          upperDigits (packValue c pin)) ++ setupId) := by
  unfold SetupURI
  rw [paddedOf_eq _ (packValue_lt_pow36 c pin)]

/-! ## Lemmas: reading the payload back -/

theorem readBase36_replicate_append (k : Nat) (s : GoString) :
    readBase36 (List.replicate k 48 ++ s) = readBase36 s := by
  unfold readBase36
  rw [List.foldl_append]
  congr 1
  induction k with
  | zero => rfl
  | succ k ih =>
    rw [List.replicate_succ, List.foldl_cons]
    simpa [base36Val] using ih

theorem foldl_reverse_digits (l : List Nat) (hl : ∀ d ∈ l, d < 36) :
    (l.reverse.map (fun d => upperByte (digitAt d))).foldl
        (fun n b => n * 36 + base36Val b) 0 = Nat.ofDigits 36 l := by
  induction l with
  | nil => simp
  | cons d l ih =>
    have hd : d < 36 := hl d (List.mem_cons_self d l)
    have ih1 := ih (fun x hx => hl x (List.mem_cons_of_mem d hx))
    rw [List.reverse_cons, List.map_append, List.foldl_append, ih1]
    simp only [List.map_cons, List.map_nil, List.foldl_cons, List.foldl_nil]
    rw [(upper_digitAt d hd).2, Nat.ofDigits_cons]
    ring

theorem readBase36_upperDigits (u : Nat) : readBase36 (upperDigits u) = u := by
  have h := foldl_reverse_digits (render u).reverse
    (fun d hd => render_lt u d (List.mem_reverse.mp hd))
  rw [List.reverse_reverse, ofDigits_render] at h
  exact h

theorem upperDigits_isUpperBase36 (u : Nat) : ∀ b ∈ upperDigits u, isUpperBase36 b := by
  intro b hb
  unfold upperDigits at hb
  rcases List.mem_map.mp hb with ⟨d, hd, rfl⟩
  exact (upper_digitAt d (render_lt u d hd)).1

theorem payloadOf_append (pre payload rest : GoString) (hpre : pre.length = 7)
    (hpay : payload.length = 9) : payloadOf (pre ++ payload ++ rest) = payload := by
  unfold payloadOf
  rw [List.append_assoc, List.drop_left' hpre, List.take_left' hpay]

theorem padded_length (u : Nat) (hu : u < 36 ^ 9) :
    (List.replicate (9 - (upperDigits u).length) 48 ++ upperDigits u).length = 9 := by
  have h := upperDigits_length_le u hu
  rw [List.length_append, List.length_replicate]
  omega

/-! ## Lemmas: `strconv.ParseUint` -/

theorem digitVal_of_isDigit (b : Byte) (h : isDigit b) :
    digitVal b = some (b.val - 48) := by
  unfold digitVal
  unfold isDigit at h
  rw [if_pos h]

theorem isDigit_of_digitVal_lt (b : Byte) (d : Nat) (h : digitVal b = some d)
    (hd : d < 10) : isDigit b := by
  unfold digitVal at h
  unfold isDigit
  split at h
  · assumption
  · split at h
    · cases h; omega
    · cases h

theorem le_foldl_dec (s : GoString) :
    ∀ n : Nat, n ≤ s.foldl (fun n b => 10 * n + (b.val - 48)) n := by
  induction s with
  | nil => intro n; simp
  | cons c cs ih =>
    intro n
    rw [List.foldl_cons]
    exact le_trans (by omega) (ih _)

theorem parseUintLoop_ok (s : GoString) :
    ∀ n : Nat, (∀ b ∈ s, isDigit b) →
      s.foldl (fun n b => 10 * n + (b.val - 48)) n < 2 ^ 64 →
      parseUintLoop s n = (s.foldl (fun n b => 10 * n + (b.val - 48)) n, none) := by
  induction s with
  | nil => intro n _ _; rfl
  | cons c cs ih =>
    intro n hs hv
    have hc : isDigit c := hs c (List.mem_cons_self c cs)
    have hcs : ∀ b ∈ cs, isDigit b := fun b hb => hs b (List.mem_cons_of_mem c hb)
    rw [List.foldl_cons] at hv ⊢
    have hle := le_foldl_dec cs (10 * n + (c.val - 48))
    have hd : c.val - 48 < 10 := by unfold isDigit at hc; omega
    have hmax : maxUint64 = 18446744073709551615 := by unfold maxUint64; norm_num
    have h64 : (2 : Nat) ^ 64 = 18446744073709551616 := by norm_num
    rw [h64] at hv
    have hn10 : (n * 10) % 2 ^ 64 = n * 10 := by rw [h64]; omega
    have hn1 : (n * 10 + (c.val - 48)) % 2 ^ 64 = 10 * n + (c.val - 48) := by rw [h64]; omega
    rw [parseUintLoop, digitVal_of_isDigit c hc]
    simp only [hn10, hn1, hmax]
    rw [if_neg (by omega), if_neg (by omega), if_neg (by omega)]
    exact ih _ hcs (by rw [h64]; exact hv)

theorem parseUintLoop_nondigit (s : GoString) :
    ∀ n : Nat, (∃ b ∈ s, ¬ isDigit b) → (parseUintLoop s n).2 ≠ none := by
  induction s with
  | nil => intro n ⟨b, hb, _⟩; cases hb
  | cons c cs ih =>
    intro n ⟨b, hb, hnd⟩
    rw [parseUintLoop]
    cases hdv : digitVal c with
    | none => simp
    | some d =>
      simp only []
      split_ifs with h1 h2 h3
      · simp
      · simp
      · simp
      · have hc : isDigit c := isDigit_of_digitVal_lt c d hdv (by omega)
        rcases List.mem_cons.mp hb with hbc | hbcs
        · subst hbc; exact absurd hc hnd
        · exact ih _ ⟨b, hbcs, hnd⟩

theorem parseUintLoop_range (s : GoString) :
    ∀ n : Nat, n < 2 ^ 64 → (∀ b ∈ s, isDigit b) →
      2 ^ 64 ≤ s.foldl (fun n b => 10 * n + (b.val - 48)) n →
      (parseUintLoop s n).2 ≠ none := by
  induction s with
  | nil => intro n hn _ hv; simp at hv; omega
  | cons c cs ih =>
    intro n hn hs hv
    have hc : isDigit c := hs c (List.mem_cons_self c cs)
    have hcs : ∀ b ∈ cs, isDigit b := fun b hb => hs b (List.mem_cons_of_mem c hb)
    rw [List.foldl_cons] at hv
    have hmax : maxUint64 = 18446744073709551615 := by unfold maxUint64; norm_num
    have h64 : (2 : Nat) ^ 64 = 18446744073709551616 := by norm_num
    rw [parseUintLoop, digitVal_of_isDigit c hc]
    simp only [hmax, h64]
    split_ifs with h1 h2 h3
    · simp
    · simp
    · simp
    · have hd : c.val - 48 < 10 := by omega
      have hlt : n * 10 + (c.val - 48) < 18446744073709551616 := by
        by_contra hcon
        apply h3
        left
        omega
      have hn1 : (n * 10 % 18446744073709551616 + (c.val - 48)) % 18446744073709551616
          = 10 * n + (c.val - 48) := by omega
      rw [hn1]
      exact ih _ (by rw [h64]; omega) hcs hv

theorem ParseUint_valid (pin : GoString) (hne : pin ≠ []) (hd : ∀ b ∈ pin, isDigit b)
    (hv : decVal pin < 2 ^ 64) : ParseUint pin = (decVal pin, none) := by
  unfold ParseUint
  rw [if_neg hne]
  exact parseUintLoop_ok pin 0 hd hv

theorem ParseUint_invalid (pin : GoString)
    (h : pin = [] ∨ (∃ b ∈ pin, ¬ isDigit b) ∨ 2 ^ 64 ≤ decVal pin) :
    (ParseUint pin).2 ≠ none := by
  unfold ParseUint
  by_cases hne : pin = []
  · simp [hne]
  · rw [if_neg hne]
    by_cases hall : ∀ b ∈ pin, isDigit b
    · rcases h with h | ⟨b, hb, hnd⟩ | h
      · exact absurd h hne
      · exact absurd (hall b hb) hnd
      · exact parseUintLoop_range pin 0 (by norm_num) hall h
    · push_neg at hall
      exact parseUintLoop_nondigit pin 0 hall

theorem packValue_of_valid (c : Byte) (pin : GoString) (hne : pin ≠ [])
    (hd : ∀ b ∈ pin, isDigit b) (hp : decVal pin < 2 ^ 27) :
    packValue c pin = c.val * 2 ^ 31 + 2 * 2 ^ 27 + decVal pin := by
  have hparse := ParseUint_valid pin hne hd
    (lt_of_lt_of_le hp (Nat.pow_le_pow_right (by norm_num) (by norm_num)))
  have hmod : decVal pin % 2 ^ 31 = decVal pin :=
    Nat.mod_eq_of_lt (lt_of_lt_of_le hp (Nat.pow_le_pow_right (by norm_num) (by norm_num)))
  rw [packValue_eq, hparse]
  simp only [ne_eq, not_true_eq_false, if_false, hmod]
  rw [← Nat.mul_add_lt_is_or hp]
  ring

theorem packValue_of_invalid (c : Byte) (pin : GoString)
    (h : (ParseUint pin).2 ≠ none) : packValue c pin = packValue c (str "0") := by
  have h0 : ParseUint (str "0") = (0, none) := by decide
  rw [packValue_eq, packValue_eq, if_pos h, h0]
  simp

/-! ## Lemmas: the loop of `Run` -/

section RunLemmas

variable {Acc Err : Type}

theorem alive_append_single (log : List (Effect Acc)) (e : Effect Acc) :
    alive (log ++ [e]) = applyEffect (alive log) e := by
  unfold alive
  rw [List.foldl_append]
  rfl

theorem snoc_eq_append_cons {α : Type} (l pre post : List α) (e x : α)
    (h : l ++ [e] = pre ++ x :: post) :
    (post = [] ∧ pre = l ∧ x = e) ∨ (∃ post', post = post' ++ [e] ∧ l = pre ++ x :: post') := by
  rcases List.eq_nil_or_concat post with hnil | ⟨post', a, hcat⟩
  · subst hnil
    have h2 := List.append_inj' h (by simp)
    left
    refine ⟨rfl, h2.1.symm, ?_⟩
    have h3 := h2.2
    simp at h3
    exact h3.symm
  · rw [List.concat_eq_append] at hcat
    subst hcat
    have h1 : l ++ [e] = (pre ++ x :: post') ++ [a] := by simpa using h
    have h2 := List.append_inj' h1 (by simp)
    right
    have h3 := h2.2
    simp at h3
    subst h3
    exact ⟨post', rfl, h2.1⟩

theorem startsClean_append_cancel (log : List (Effect Acc)) (k : Nat)
    (h : StartsClean log) : StartsClean (log ++ [Effect.cancel k]) := by
  intro pre srv post heq
  rcases snoc_eq_append_cons log pre post _ _ heq with ⟨_, _, hx⟩ | ⟨post', _, hl⟩
  · cases hx
  · exact h pre srv post' hl

theorem startsClean_append_start (log : List (Effect Acc)) (srv : Instance Acc)
    (h : StartsClean log) (hidle : alive log = []) :
    StartsClean (log ++ [Effect.start srv]) := by
  intro pre srv' post heq
  rcases snoc_eq_append_cons log pre post _ _ heq with ⟨_, hpre, _⟩ | ⟨post', _, hl⟩
  · rw [hpre]; exact hidle
  · exact h pre srv' post' hl

theorem stopRunning_idle (st : RunState Acc Err) (h : Consistent st) :
    (stopRunning st).stopServer = none ∧ alive (stopRunning st).log = [] := by
  unfold stopRunning
  rcases h with ⟨h1, h2⟩ | ⟨srv, h1, h2⟩
  · rw [h1]; exact ⟨h1, h2⟩
  · rw [h1]
    refine ⟨rfl, ?_⟩
    simp only []
    rw [alive_append_single, h2]
    simp [applyEffect]

theorem stopRunning_startsClean (st : RunState Acc Err) (h : StartsClean st.log) :
    StartsClean (stopRunning st).log := by
  unfold stopRunning
  cases st.stopServer with
  | none => exact h
  | some k => exact startsClean_append_cancel st.log k h

theorem startServer_consistent (NewServer : Nat → List Acc → Option Err)
    (st : RunState Acc Err) (h1 : st.stopServer = none) (h2 : alive st.log = []) :
    Consistent (startServer NewServer st) := by
  unfold startServer
  simp only []
  split
  · left
    refine ⟨h1, ?_⟩
    simp only []
    rw [alive_append_single, h2]
    rfl
  · right
    refine ⟨⟨st.contexts, if st.s.as.length = 0 then [] else st.s.as,
      st.s.SetupId, st.s.Pin⟩, rfl, ?_⟩
    simp only []
    rw [alive_append_single, h2]
    rfl

theorem startServer_startsClean (NewServer : Nat → List Acc → Option Err)
    (st : RunState Acc Err) (h : StartsClean st.log) (h2 : alive st.log = []) :
    StartsClean (startServer NewServer st).log := by
  unfold startServer
  simp only []
  split
  · exact startsClean_append_cancel st.log _ h
  · exact startsClean_append_start st.log _ h h2

theorem step_invariant (NewServer : Nat → List Acc → Option Err) (now : Int)
    (st : RunState Acc Err) (e : Event Acc)
    (h : Consistent st ∧ StartsClean st.log) :
    Consistent (step NewServer now st e) ∧ StartsClean (step NewServer now st e).log := by
  unfold step
  split
  · exact h
  · have hidle := stopRunning_idle st h.1
    have hclean := stopRunning_startsClean st h.2
    cases e with
    | cancel =>
      exact ⟨Or.inl ⟨hidle.1, hidle.2⟩, hclean⟩
    | timerFire =>
      exact ⟨startServer_consistent NewServer _ hidle.1 hidle.2,
        startServer_startsClean NewServer _ hclean hidle.2⟩
    | submit accessories =>
      unfold handle
      simp only []
      split
      · exact h
      · have hc : Consistent ({ st with s := { st.s with as := accessories } } : RunState Acc Err) := h.1
        have hidle2 := stopRunning_idle _ hc
        have hclean2 := stopRunning_startsClean
          ({ st with s := { st.s with as := accessories } } : RunState Acc Err) h.2
        exact ⟨startServer_consistent NewServer _ hidle2.1 hidle2.2,
          startServer_startsClean NewServer _ hclean2 hidle2.2⟩

theorem runEvents_invariant (NewServer : Nat → List Acc → Option Err)
    (evs : List (Int × Event Acc)) :
    ∀ st : RunState Acc Err, Consistent st ∧ StartsClean st.log →
      Consistent (runEvents NewServer st evs) ∧
        StartsClean (runEvents NewServer st evs).log := by
  induction evs with
  | nil => intro st h; exact h
  | cons te evs ih =>
    intro st h
    exact ih _ (step_invariant NewServer te.1 st te.2 h)

theorem loopEntry_invariant (s : DynamicServer Acc) :
    Consistent (loopEntry s : RunState Acc Err) ∧
      StartsClean (loopEntry s : RunState Acc Err).log := by
  refine ⟨Or.inl ⟨rfl, rfl⟩, ?_⟩
  intro pre srv post h
  cases pre <;> cases h

theorem consistent_length_le (st : RunState Acc Err) (h : Consistent st) :
    (alive st.log).length ≤ 1 := by
  rcases h with ⟨_, h2⟩ | ⟨srv, _, h2⟩ <;> simp [h2]

end RunLemmas

section RunSteps

variable {Acc Err : Type}

theorem args_eq (c : List Acc) : (if c.length = 0 then [] else c) = c := by
  cases c <;> simp

theorem startServer_ok (NewServer : Nat → List Acc → Option Err) (st : RunState Acc Err)
    (hok : NewServer st.contexts st.s.as = none) :
    startServer NewServer st =
      { st with
        contexts := st.contexts + 1
        stopServer := some st.contexts
        log := st.log ++ [Effect.start ⟨st.contexts, st.s.as, st.s.SetupId, st.s.Pin⟩]
        timer := none } := by
  unfold startServer
  simp only [args_eq, hok]

theorem step_submit_debounce (NewServer : Nat → List Acc → Option Err) (now : Int)
    (st : RunState Acc Err) (c : List Acc) (k : Nat)
    (hD : 0 < st.s.DebounceDuration) (hrun : st.stopServer = some k) (hloop : st.ret = none) :
    step NewServer now st (Event.submit c) =
      { st with s := { st.s with as := c }, timer := some (now + st.s.DebounceDuration) } := by
  unfold step handle
  simp [hloop, hD, hrun]

theorem step_submit_immediate (NewServer : Nat → List Acc → Option Err) (now : Int)
    (st : RunState Acc Err) (c : List Acc)
    (hcond : ¬ (0 < st.s.DebounceDuration ∧ st.stopServer ≠ none)) (hloop : st.ret = none)
    (hok : NewServer st.contexts c = none) :
    step NewServer now st (Event.submit c) =
      { st with
        s := { st.s with as := c }
        contexts := st.contexts + 1
        stopServer := some st.contexts
        log := st.log ++ (st.stopServer.toList.map Effect.cancel ++
          [Effect.start ⟨st.contexts, c, st.s.SetupId, st.s.Pin⟩])
        timer := none } := by
  unfold step handle
  simp only [hloop, Option.isSome_none, Bool.false_eq_true, if_false, gt_iff_lt]
  rw [if_neg hcond]
  cases hs : st.stopServer <;>
    simp [stopRunning, startServer, hs, args_eq, hok]

theorem step_timerFire_running (NewServer : Nat → List Acc → Option Err) (now : Int)
    (st : RunState Acc Err) (k : Nat) (hrun : st.stopServer = some k) (hloop : st.ret = none)
    (hok : NewServer st.contexts st.s.as = none) :
    step NewServer now st Event.timerFire =
      { st with
        contexts := st.contexts + 1
        stopServer := some st.contexts
        log := st.log ++ [Effect.cancel k,
          Effect.start ⟨st.contexts, st.s.as, st.s.SetupId, st.s.Pin⟩]
        timer := none } := by
  unfold step handle
  simp only [hloop, Option.isSome_none, Bool.false_eq_true, if_false]
  have h1 : stopRunning st =
      ({ st with log := st.log ++ [Effect.cancel k], stopServer := none } :
        RunState Acc Err) := by
    unfold stopRunning; simp only [hrun]
  have h2 := startServer_ok NewServer
    ({ st with log := st.log ++ [Effect.cancel k], stopServer := none } : RunState Acc Err) hok
  rw [h1]
  refine h2.trans ?_
  simp [hloop]

theorem runEvents_append (NewServer : Nat → List Acc → Option Err) (st : RunState Acc Err)
    (evs evs' : List (Int × Event Acc)) :
    runEvents NewServer st (evs ++ evs') =
      runEvents NewServer (runEvents NewServer st evs) evs' := by
  unfold runEvents
  rw [List.foldl_append]

theorem runEvents_cons (NewServer : Nat → List Acc → Option Err) (st : RunState Acc Err)
    (te : Int × Event Acc) (evs : List (Int × Event Acc)) :
    runEvents NewServer st (te :: evs) =
      runEvents NewServer (step NewServer te.1 st te.2) evs := rfl

theorem submissions_take (cs : List (Int × List Acc)) (i : Nat) :
    (submissions cs).take i = submissions (cs.take i) := by
  unfold submissions
  rw [List.map_take]

/-- A burst of submissions in debounce mode only replaces the configuration
and rearms the timer. -/
theorem burst_debounce (NewServer : Nat → List Acc → Option Err)
    (cs : List (Int × List Acc)) (t : Int) (c : List Acc) :
    ∀ (st : RunState Acc Err) (k : Nat), 0 < st.s.DebounceDuration →
      st.stopServer = some k → st.ret = none →
      runEvents NewServer st (submissions (cs ++ [(t, c)])) =
        { st with s := { st.s with as := c }, timer := some (t + st.s.DebounceDuration) } := by
  induction cs with
  | nil =>
    intro st k hD hrun hloop
    exact step_submit_debounce NewServer t st c k hD hrun hloop
  | cons p cs ih =>
    intro st k hD hrun hloop
    have h1 := step_submit_debounce NewServer p.1 st p.2 k hD hrun hloop
    have h2 : runEvents NewServer st (submissions (p :: cs ++ [(t, c)])) =
        runEvents NewServer (step NewServer p.1 st (Event.submit p.2))
          (submissions (cs ++ [(t, c)])) := rfl
    rw [h2, h1]
    exact ih _ k hD hrun hloop

theorem burst_debounce_log (NewServer : Nat → List Acc → Option Err)
    (cs : List (Int × List Acc)) (st : RunState Acc Err) (k : Nat)
    (hD : 0 < st.s.DebounceDuration) (hrun : st.stopServer = some k) (hloop : st.ret = none) :
    (runEvents NewServer st (submissions cs)).log = st.log := by
  rcases List.eq_nil_or_concat cs with hnil | ⟨cs', p, hcat⟩
  · subst hnil; rfl
  · rw [List.concat_eq_append] at hcat
    subst hcat
    rw [burst_debounce NewServer cs' p.1 p.2 st k hD hrun hloop]

theorem startsOf_immediateLog (setupId pin : GoString) (cs : List (List Acc)) :
    ∀ (running : Option Nat) (k : Nat),
      startsOf (immediateLog setupId pin running k cs) = cs := by
  induction cs with
  | nil => intro running k; rfl
  | cons c cs ih =>
    intro running k
    have h := ih (some k) (k + 1)
    unfold startsOf at h ⊢
    cases running <;>
      simp [immediateLog, List.filterMap_append, List.filterMap_cons, h]

/-- A run of submissions handled without debounce. -/
theorem burst_immediate (NewServer : Nat → List Acc → Option Err)
    (hok : ∀ n as, NewServer n as = none) (cs : List (Int × List Acc)) :
    ∀ st : RunState Acc Err, ¬ 0 < st.s.DebounceDuration → st.ret = none →
      st.timer = none →
      (runEvents NewServer st (submissions cs)).log =
        st.log ++ immediateLog st.s.SetupId st.s.Pin st.stopServer st.contexts
          (cs.map Prod.snd) ∧
      (runEvents NewServer st (submissions cs)).timer = none ∧
      (runEvents NewServer st (submissions cs)).ret = none := by
  induction cs with
  | nil =>
    intro st _ hloop htimer
    exact ⟨by simp [submissions, runEvents, immediateLog], htimer, hloop⟩
  | cons p cs ih =>
    intro st hD hloop htimer
    have h1 := step_submit_immediate NewServer p.1 st p.2 (fun h => hD h.1) hloop (hok _ _)
    have h2 : runEvents NewServer st (submissions (p :: cs)) =
        runEvents NewServer (step NewServer p.1 st (Event.submit p.2)) (submissions cs) := rfl
    have h3 := ih (step NewServer p.1 st (Event.submit p.2))
      (by rw [h1]; exact hD) (by rw [h1]; exact hloop) (by rw [h1])
    rw [h2]
    refine ⟨?_, h3.2.1, h3.2.2⟩
    rw [h3.1, h1]
    simp [immediateLog, List.append_assoc]

end RunSteps

/-! ## Lemmas: `fmt.Sprintf` and the generated identity -/

theorem formatBits_eq_renderBase (b : Nat) (hb : 1 < b) (fuel : Nat) :
    ∀ (u : Nat) (a : GoString), u < b ^ (fuel + 1) →
      formatBits b fuel u a = (renderBase b u).map digitAt ++ a := by
  induction fuel with
  | zero =>
    intro u a hu
    have hub : u < b := by simpa using hu
    rcases Nat.eq_zero_or_pos u with h0 | hpos
    · subst h0; simp [formatBits, renderBase]
    · simp [formatBits, renderBase, Nat.pos_iff_ne_zero.mp hpos,
        Nat.digits_of_lt b u (Nat.pos_iff_ne_zero.mp hpos) hub]
  | succ fuel ih =>
    intro u a hu
    have hbpos : 0 < b := by omega
    by_cases hge : u ≥ b
    · have hq : u / b < b ^ (fuel + 1) := by
        rw [Nat.div_lt_iff_lt_mul hbpos]
        calc u < b ^ (fuel + 1 + 1) := hu
          _ = b ^ (fuel + 1) * b := by ring
      have hqpos : 0 < u / b := Nat.div_pos hge hbpos
      have hupos : 0 < u := by omega
      have hmod : u - u / b * b = u % b := by
        have h1 := Nat.div_add_mod u b
        have h2 : b * (u / b) = u / b * b := Nat.mul_comm _ _
        omega
      rw [formatBits, if_pos hge]
      simp only []
      rw [ih (u / b) _ hq, hmod]
      simp [renderBase, Nat.pos_iff_ne_zero.mp hqpos, Nat.pos_iff_ne_zero.mp hupos,
        Nat.digits_def' hb hupos]
    · have hub : u < b := by omega
      rw [formatBits, if_neg hge]
      rcases Nat.eq_zero_or_pos u with h0 | hpos
      · subst h0; simp [renderBase]
      · simp [renderBase, Nat.pos_iff_ne_zero.mp hpos,
          Nat.digits_of_lt b u (Nat.pos_iff_ne_zero.mp hpos) hub]

theorem renderBase_lt (b : Nat) (hb : 1 < b) (u d : Nat) (h : d ∈ renderBase b u) :
    d < b := by
  unfold renderBase at h
  split at h
  · simp at h; omega
  · exact Nat.digits_lt_base hb (List.mem_reverse.mp h)

theorem renderBase_length_le (b : Nat) (hb : 1 < b) (k u : Nat) (hk : 0 < k)
    (hu : u < b ^ k) : (renderBase b u).length ≤ k := by
  unfold renderBase
  split
  · simpa using hk
  · rename_i h0
    have h1 := Nat.base_pow_length_digits_le b u hb h0
    have h2 : b ^ (Nat.digits b u).length < b ^ (k + 1) := by
      calc b ^ (Nat.digits b u).length ≤ b * u := h1
        _ < b * b ^ k := Nat.mul_lt_mul_of_pos_left hu (by omega)
        _ = b ^ (k + 1) := by ring
    have h3 := (Nat.pow_lt_pow_iff_right hb).mp h2
    simp only [List.length_reverse]
    omega

theorem ofDigits_renderBase (b u : Nat) : Nat.ofDigits b (renderBase b u).reverse = u := by
  unfold renderBase
  split
  · rename_i h0; subst h0; simp
  · simp [Nat.ofDigits_digits]

theorem formatBits_ne_nil (b fuel : Nat) :
    ∀ (u : Nat) (a : GoString), formatBits b fuel u a ≠ [] := by
  induction fuel with
  | zero => intro u a; simp [formatBits]
  | succ fuel ih =>
    intro u a
    rw [formatBits]
    split
    · exact ih _ _
    · simp

theorem fmtInteger_ne_nil (u b prec : Nat) : fmtInteger u b prec ≠ [] := by
  unfold fmtInteger
  simp [formatBits_ne_nil]

theorem fmtInteger_eq (b : Nat) (hb : 1 < b) (prec u : Nat) (_hprec : 0 < prec)
    (hp65 : prec ≤ 65) (hu : u < b ^ prec) :
    fmtInteger u b prec =
      List.replicate (prec - (renderBase b u).length) 48 ++ (renderBase b u).map digitAt := by
  have h65 : u < b ^ (64 + 1) :=
    lt_of_lt_of_le hu (Nat.pow_le_pow_right (by omega) hp65)
  unfold fmtInteger
  rw [formatBits_eq_renderBase b hb 64 u [] h65]
  simp

theorem fmtInteger_length (b : Nat) (hb : 1 < b) (prec u : Nat) (hprec : 0 < prec)
    (hp65 : prec ≤ 65) (hu : u < b ^ prec) : (fmtInteger u b prec).length = prec := by
  have hlen := renderBase_length_le b hb prec u hprec hu
  rw [fmtInteger_eq b hb prec u hprec hp65 hu]
  simp only [List.length_append, List.length_replicate, List.length_map]
  omega

theorem upper_hex_digitAt (d : Nat) (h : d < 16) : isUpperHex (upperByte (digitAt d)) := by
  have key : ∀ i : Fin 16, isUpperHex (upperByte (digitAt i.val)) := by decide
  exact key ⟨d, h⟩

theorem dec_digitAt (d : Nat) (h : d < 10) :
    isDigit (digitAt d) ∧ (digitAt d).val - 48 = d := by
  have key : ∀ i : Fin 10, isDigit (digitAt i.val) ∧ (digitAt i.val).val - 48 = i.val := by
    decide
  exact key ⟨d, h⟩

/-- The generated setup-id: 4 uppercase hexadecimal digits. -/
theorem genSetupId_shape (r : Nat) (hr : r < 0xffff) :
    (ToUpper (Sprintf04x r)).length = 4 ∧ ∀ b ∈ ToUpper (Sprintf04x r), isUpperHex b := by
  have hu : r < 16 ^ 4 := by omega
  constructor
  · unfold ToUpper Sprintf04x
    rw [List.length_map]
    exact fmtInteger_length 16 (by norm_num) 4 r (by norm_num) (by norm_num) hu
  · intro b hb
    unfold ToUpper Sprintf04x at hb
    rw [fmtInteger_eq 16 (by norm_num) 4 r (by norm_num) (by norm_num) hu] at hb
    rcases List.mem_map.mp hb with ⟨x, hx, rfl⟩
    rcases List.mem_append.mp hx with h | h
    · rw [List.eq_of_mem_replicate h]; decide
    · rcases List.mem_map.mp h with ⟨d, hd, rfl⟩
      exact upper_hex_digitAt d (renderBase_lt 16 (by norm_num) r d hd)

theorem decVal_replicate_append (k : Nat) (s : GoString) :
    decVal (List.replicate k 48 ++ s) = decVal s := by
  unfold decVal
  rw [List.foldl_append]
  congr 1
  induction k with
  | zero => rfl
  | succ k ih =>
    rw [List.replicate_succ, List.foldl_cons]
    simpa using ih

theorem foldl_reverse_dec (l : List Nat) (hl : ∀ d ∈ l, d < 10) :
    (l.reverse.map digitAt).foldl (fun n b => 10 * n + (b.val - 48)) 0 =
      Nat.ofDigits 10 l := by
  induction l with
  | nil => simp
  | cons d l ih =>
    have hd : d < 10 := hl d (List.mem_cons_self d l)
    have ih1 := ih (fun x hx => hl x (List.mem_cons_of_mem d hx))
    rw [List.reverse_cons, List.map_append, List.foldl_append, ih1]
    simp only [List.map_cons, List.map_nil, List.foldl_cons, List.foldl_nil]
    rw [(dec_digitAt d hd).2, Nat.ofDigits_cons]
    ring

/-- The generated pin: 8 decimal digits denoting the number drawn. -/
theorem genPin_shape (q : Nat) (hq : q < 99999999) :
    (Sprintf08d q).length = 8 ∧ (∀ b ∈ Sprintf08d q, isDigit b) ∧
      decVal (Sprintf08d q) = q := by
  have hu : q < 10 ^ 8 := by omega
  have heq := fmtInteger_eq 10 (by norm_num) 8 q (by norm_num) (by norm_num) hu
  refine ⟨fmtInteger_length 10 (by norm_num) 8 q (by norm_num) (by norm_num) hu, ?_, ?_⟩
  · intro b hb
    unfold Sprintf08d at hb
    rw [heq] at hb
    rcases List.mem_append.mp hb with h | h
    · rw [List.eq_of_mem_replicate h]; decide
    · rcases List.mem_map.mp h with ⟨d, hd, rfl⟩
      exact (dec_digitAt d (renderBase_lt 10 (by norm_num) q d hd)).1
  · unfold Sprintf08d
    rw [heq, decVal_replicate_append]
    have h := foldl_reverse_dec (renderBase 10 q).reverse
      (fun d hd => renderBase_lt 10 (by norm_num) q d (List.mem_reverse.mp hd))
    rw [List.reverse_reverse, ofDigits_renderBase] at h
    exact h

theorem resolveIdentity_nonempty {Acc : Type} (s : DynamicServer Acc) (r q : Nat) :
    (resolveIdentity s r q).SetupId ≠ [] ∧ (resolveIdentity s r q).Pin ≠ [] := by
  have hid : ToUpper (Sprintf04x r) ≠ [] := by
    unfold ToUpper Sprintf04x
    simp [fmtInteger_ne_nil]
  have hpin : Sprintf08d q ≠ [] := fmtInteger_ne_nil q 10 8
  unfold resolveIdentity
  by_cases h1 : s.SetupId = [] <;> by_cases h2 : s.Pin = [] <;>
    simp [h1, h2, hid, hpin]

theorem resolveIdentity_of_nonempty {Acc : Type} (s : DynamicServer Acc) (r q : Nat)
    (h1 : s.SetupId ≠ []) (h2 : s.Pin ≠ []) : resolveIdentity s r q = s := by
  unfold resolveIdentity
  simp [h1, h2]

theorem resolveIdentity_keeps {Acc : Type} (s : DynamicServer Acc) (r q : Nat) :
    (s.SetupId ≠ [] → (resolveIdentity s r q).SetupId = s.SetupId) ∧
      (s.Pin ≠ [] → (resolveIdentity s r q).Pin = s.Pin) ∧
      (s.SetupId = [] → (resolveIdentity s r q).SetupId = ToUpper (Sprintf04x r)) ∧
      (s.Pin = [] → (resolveIdentity s r q).Pin = Sprintf08d q) ∧
      (resolveIdentity s r q).BridgeType = s.BridgeType ∧
      (resolveIdentity s r q).DebounceDuration = s.DebounceDuration ∧
      (resolveIdentity s r q).as = s.as := by
  unfold resolveIdentity
  by_cases h1 : s.SetupId = [] <;> by_cases h2 : s.Pin = [] <;> simp [h1, h2]

/-! ## Lemmas: frame and invariants of the loop -/

section RunFrame

variable {Acc Err : Type}

theorem stopRunning_frame (st : RunState Acc Err) :
    (stopRunning st).s = st.s ∧ (stopRunning st).timer = st.timer ∧
      (stopRunning st).ret = st.ret ∧ (stopRunning st).contexts = st.contexts ∧
      (stopRunning st).stopServer = none ∧
      (stopRunning st).log = st.log ++ st.stopServer.toList.map Effect.cancel := by
  unfold stopRunning
  cases h : st.stopServer <;> simp [h]

theorem startServer_fail (NewServer : Nat → List Acc → Option Err) (st : RunState Acc Err)
    (e : Err) (hfail : NewServer st.contexts st.s.as = some e) :
    startServer NewServer st =
      { st with
        contexts := st.contexts + 1
        log := st.log ++ [Effect.cancel st.contexts]
        ret := some (some e) } := by
  unfold startServer
  simp only [args_eq, hfail]

theorem startServer_cases (NewServer : Nat → List Acc → Option Err) (st : RunState Acc Err) :
    (∃ e, NewServer st.contexts st.s.as = some e ∧
        startServer NewServer st =
          { st with
            contexts := st.contexts + 1
            log := st.log ++ [Effect.cancel st.contexts]
            ret := some (some e) }) ∨
      (NewServer st.contexts st.s.as = none ∧
        startServer NewServer st =
          { st with
            contexts := st.contexts + 1
            stopServer := some st.contexts
            log := st.log ++ [Effect.start ⟨st.contexts, st.s.as, st.s.SetupId, st.s.Pin⟩]
            timer := none }) := by
  cases h : NewServer st.contexts st.s.as with
  | some e => exact Or.inl ⟨e, rfl, startServer_fail NewServer st e h⟩
  | none => exact Or.inr ⟨rfl, startServer_ok NewServer st h⟩

theorem runEvents_returned (NewServer : Nat → List Acc → Option Err)
    (evs : List (Int × Event Acc)) :
    ∀ st : RunState Acc Err, st.ret.isSome = true → runEvents NewServer st evs = st := by
  induction evs with
  | nil => intro st _; rfl
  | cons te evs ih =>
    intro st h
    have h1 : step NewServer te.1 st te.2 = st := by
      unfold step; rw [if_pos h]
    rw [runEvents_cons, h1]
    exact ih st h

/-- What one iteration does, by cases: nothing after `Run` has returned; a
return of `nil` on cancellation; a rearmed timer on a debounced submission; a
stop followed by a failed or a successful start otherwise. -/
theorem step_cases (NewServer : Nat → List Acc → Option Err) (now : Int)
    (st : RunState Acc Err) (ev : Event Acc) :
    (st.ret.isSome = true ∧ step NewServer now st ev = st) ∨
    (st.ret = none ∧ ev = Event.cancel ∧
      step NewServer now st ev =
        { st with
          stopServer := none
          log := st.log ++ st.stopServer.toList.map Effect.cancel
          ret := some none }) ∨
    (st.ret = none ∧ ∃ c, ev = Event.submit c ∧ startConfig st ev = none ∧
      0 < st.s.DebounceDuration ∧ st.stopServer ≠ none ∧
      step NewServer now st ev =
        { st with s := { st.s with as := c }, timer := some (now + st.s.DebounceDuration) }) ∨
    (st.ret = none ∧ ∃ c e, startConfig st ev = some c ∧ NewServer st.contexts c = some e ∧
      step NewServer now st ev =
        { st with
          s := { st.s with as := c }
          stopServer := none
          contexts := st.contexts + 1
          log := st.log ++ (st.stopServer.toList.map Effect.cancel ++
            [Effect.cancel st.contexts])
          ret := some (some e) }) ∨
    (st.ret = none ∧ ∃ c, startConfig st ev = some c ∧ NewServer st.contexts c = none ∧
      step NewServer now st ev =
        { st with
          s := { st.s with as := c }
          stopServer := some st.contexts
          contexts := st.contexts + 1
          log := st.log ++ (st.stopServer.toList.map Effect.cancel ++
            [Effect.start ⟨st.contexts, c, st.s.SetupId, st.s.Pin⟩])
          timer := none }) := by
  cases hret : st.ret with
  | some r =>
    left
    refine ⟨rfl, ?_⟩
    unfold step; simp [hret]
  | none =>
    right
    have hstep : step NewServer now st ev = handle NewServer now st ev := by
      unfold step; simp [hret]
    cases ev with
    | cancel =>
      left
      refine ⟨rfl, rfl, ?_⟩
      rw [hstep]
      unfold handle stopRunning
      cases h : st.stopServer <;> simp [h]
    | timerFire =>
      right; right
      rcases hc : NewServer st.contexts st.s.as with _ | e
      · right
        refine ⟨rfl, st.s.as, rfl, hc, ?_⟩
        rw [hstep]
        unfold handle stopRunning startServer
        cases h : st.stopServer <;> simp [h, args_eq, hc, hret]
      · left
        refine ⟨rfl, st.s.as, e, rfl, hc, ?_⟩
        rw [hstep]
        unfold handle stopRunning startServer
        cases h : st.stopServer <;> simp [h, args_eq, hc, hret]
    | submit c =>
      right
      by_cases hcond : st.s.DebounceDuration > 0 ∧ st.stopServer ≠ none
      · left
        refine ⟨rfl, c, rfl, ?_, hcond.1, hcond.2, ?_⟩
        · simp only [startConfig]; rw [if_pos hcond]
        · rw [hstep]
          unfold handle
          simp only []
          rw [if_pos hcond, hret]
      · right
        have hsc : startConfig st (Event.submit c) = some c := by
          simp only [startConfig]; rw [if_neg hcond]
        have hh : handle NewServer now st (Event.submit c) =
            startServer NewServer
              (stopRunning ({ st with s := { st.s with as := c } } : RunState Acc Err)) := by
          unfold handle
          simp only []
          rw [if_neg hcond]
        rcases hc : NewServer st.contexts c with _ | e
        · right
          refine ⟨rfl, c, hsc, hc, ?_⟩
          rw [hstep, hh]
          unfold stopRunning startServer
          cases h : st.stopServer <;> simp [h, args_eq, hc, hret]
        · left
          refine ⟨rfl, c, e, hsc, hc, ?_⟩
          rw [hstep, hh]
          unfold stopRunning startServer
          cases h : st.stopServer <;> simp [h, args_eq, hc, hret]

end RunFrame

section RunInvariant

variable {Acc Err : Type}

theorem alive_stop (st : RunState Acc Err) (h : Consistent st) :
    alive (st.log ++ st.stopServer.toList.map Effect.cancel) = [] := by
  have h1 := (stopRunning_idle st h).2
  rw [(stopRunning_frame st).2.2.2.2.2] at h1
  exact h1

theorem alive_stop_cancel (st : RunState Acc Err) (h : Consistent st) (k : Nat) :
    alive (st.log ++ (st.stopServer.toList.map Effect.cancel ++ [Effect.cancel k])) = [] := by
  rw [← List.append_assoc, alive_append_single, alive_stop st h]
  rfl

theorem alive_stop_start (st : RunState Acc Err) (h : Consistent st) (srv : Instance Acc) :
    alive (st.log ++ (st.stopServer.toList.map Effect.cancel ++ [Effect.start srv])) =
      [srv] := by
  rw [← List.append_assoc, alive_append_single, alive_stop st h]
  rfl

theorem step_loopInv (NewServer : Nat → List Acc → Option Err) (now : Int)
    (st : RunState Acc Err) (ev : Event Acc) (setupId pin : GoString)
    (h : LoopInv setupId pin st) : LoopInv setupId pin (step NewServer now st ev) := by
  obtain ⟨hcons, hid, hpin, hstarts, htimer, hcur⟩ := h
  rcases step_cases NewServer now st ev with
    ⟨_, heq⟩ | ⟨hret, _, heq⟩ | ⟨hret, c, _, _, hD, hrun, heq⟩ |
    ⟨hret, c, e, _, _, heq⟩ | ⟨hret, c, _, _, heq⟩
  · rw [heq]; exact ⟨hcons, hid, hpin, hstarts, htimer, hcur⟩
  · rw [heq]
    refine ⟨Or.inl ⟨rfl, alive_stop st hcons⟩, hid, hpin, ?_, ?_, ?_⟩
    · intro srv hmem
      rcases List.mem_append.mp hmem with h1 | h1
      · exact hstarts srv h1
      · rcases List.mem_map.mp h1 with ⟨k, _, hk⟩; cases hk
    · intro hr; cases hr
    · intro _ srv hmem
      have h0 : alive (st.log ++ st.stopServer.toList.map Effect.cancel) = [] :=
        alive_stop st hcons
      have hmem2 : srv ∈ alive (st.log ++ st.stopServer.toList.map Effect.cancel) := hmem
      rw [h0] at hmem2; cases hmem2
  · rw [heq]
    refine ⟨hcons, hid, hpin, hstarts, ?_, ?_⟩
    · intro _ _; exact ⟨hD, hrun⟩
    · intro ht; cases ht
  · rw [heq]
    refine ⟨Or.inl ⟨rfl, alive_stop_cancel st hcons _⟩, hid, hpin, ?_, ?_, ?_⟩
    · intro srv hmem
      rcases List.mem_append.mp hmem with h1 | h1
      · exact hstarts srv h1
      · rcases List.mem_append.mp h1 with h2 | h2
        · rcases List.mem_map.mp h2 with ⟨k, _, hk⟩; cases hk
        · rcases List.mem_singleton.mp h2 with hk; cases hk
    · intro hr; cases hr
    · intro _ srv hmem
      have h0 := alive_stop_cancel st hcons st.contexts
      have hmem2 : srv ∈ alive (st.log ++ (st.stopServer.toList.map Effect.cancel ++
          [Effect.cancel st.contexts])) := hmem
      rw [h0] at hmem2; cases hmem2
  · rw [heq]
    refine ⟨Or.inr ⟨⟨st.contexts, c, st.s.SetupId, st.s.Pin⟩, rfl,
      alive_stop_start st hcons _⟩, hid, hpin, ?_, ?_, ?_⟩
    · intro srv hmem
      rcases List.mem_append.mp hmem with h1 | h1
      · exact hstarts srv h1
      · rcases List.mem_append.mp h1 with h2 | h2
        · rcases List.mem_map.mp h2 with ⟨k, _, hk⟩; cases hk
        · rcases List.mem_singleton.mp h2 with hk
          cases hk
          exact ⟨hid, hpin⟩
    · intro _ ht; exact absurd rfl ht
    · intro _ srv hmem
      have h0 := alive_stop_start st hcons ⟨st.contexts, c, st.s.SetupId, st.s.Pin⟩
      have hmem2 : srv ∈ alive (st.log ++ (st.stopServer.toList.map Effect.cancel ++
          [Effect.start ⟨st.contexts, c, st.s.SetupId, st.s.Pin⟩])) := hmem
      rw [h0] at hmem2
      rw [List.mem_singleton.mp hmem2]

theorem runEvents_loopInv (NewServer : Nat → List Acc → Option Err)
    (evs : List (Int × Event Acc)) (setupId pin : GoString) :
    ∀ st : RunState Acc Err, LoopInv setupId pin st →
      LoopInv setupId pin (runEvents NewServer st evs) := by
  induction evs with
  | nil => intro st h; exact h
  | cons te evs ih =>
    intro st h
    exact ih _ (step_loopInv NewServer te.1 st te.2 setupId pin h)

theorem loopEntry_loopInv (s : DynamicServer Acc) :
    LoopInv s.SetupId s.Pin (loopEntry s : RunState Acc Err) := by
  refine ⟨Or.inl ⟨rfl, rfl⟩, rfl, rfl, ?_, ?_, ?_⟩
  · intro srv hmem; cases hmem
  · intro _ ht; exact absurd rfl ht
  · intro _ srv hmem; cases hmem

theorem reachable_loopInv (NewServer : Nat → List Acc → Option Err) (s0 : DynamicServer Acc)
    (evs : List (Int × Event Acc)) :
    LoopInv s0.SetupId s0.Pin (runEvents NewServer (loopEntry s0) evs) :=
  runEvents_loopInv NewServer evs _ _ _ (loopEntry_loopInv s0)

end RunInvariant

/-! ## Lemmas: flags field and injectivity -/

theorem flagsField_of_valid (c : Byte) (p : Nat) (hp : p < 2 ^ 27) :
    flagsField (c.val * 2 ^ 31 + 2 * 2 ^ 27 + p) = 2 := by
  have h15 : (0xf : Nat) = 2 ^ 4 - 1 := by norm_num
  unfold flagsField
  rw [Nat.shiftRight_eq_div_pow, h15, Nat.and_pow_two_sub_one_eq_mod]
  norm_num at hp ⊢
  omega

theorem packValue_eq_of_SetupURI_eq (c1 c2 : Byte) (id1 id2 pin1 pin2 : GoString)
    (heq : SetupURI c1 id1 pin1 = SetupURI c2 id2 pin2) :
    packValue c1 pin1 = packValue c2 pin2 ∧ id1 = id2 := by
  have hl1 := padded_length (packValue c1 pin1) (packValue_lt_pow36 c1 pin1)
  have hl2 := padded_length (packValue c2 pin2) (packValue_lt_pow36 c2 pin2)
  rw [SetupURI_eq, SetupURI_eq] at heq
  have h1 := Option.some.inj heq
  have h2 := List.append_inj h1 (by
    simp only [List.length_append] at hl1 hl2 ⊢
    omega)
  have h3 := (List.append_inj h2.1 rfl).2
  have h4 := congrArg readBase36 h3
  rw [readBase36_replicate_append, readBase36_replicate_append, readBase36_upperDigits,
    readBase36_upperDigits] at h4
  exact ⟨h4, h2.2⟩

section RunFire

variable {Acc Err : Type}

theorem step_timerFire_fail (NewServer : Nat → List Acc → Option Err) (now : Int)
    (st : RunState Acc Err) (k : Nat) (e : Err) (hrun : st.stopServer = some k)
    (hloop : st.ret = none) (hfail : NewServer st.contexts st.s.as = some e) :
    step NewServer now st Event.timerFire =
      { st with
        contexts := st.contexts + 1
        stopServer := none
        log := st.log ++ [Effect.cancel k, Effect.cancel st.contexts]
        ret := some (some e) } := by
  unfold step handle
  simp only [hloop, Option.isSome_none, Bool.false_eq_true, if_false]
  have h1 : stopRunning st =
      ({ st with log := st.log ++ [Effect.cancel k], stopServer := none } :
        RunState Acc Err) := by
    unfold stopRunning; simp only [hrun]
  have h2 := startServer_fail NewServer
    ({ st with log := st.log ++ [Effect.cancel k], stopServer := none } : RunState Acc Err)
    e hfail
  rw [h1]
  refine h2.trans ?_
  simp

end RunFire

/-! ## The claims -/

/-- C1: for every category byte, setup-id and pin (well-formed or not),
`SetupURI` returns `"X-HM://"` followed by a payload of exactly 9 bytes, each
in `0-9` or `A-Z`, followed by the setup-id verbatim; the result has length
`7 + 9 + len(setupId)`. -/
theorem SetupURI_shape (c : Byte) (setupId pin : GoString) :
    ∃ payload : GoString,
      SetupURI c setupId pin = some (str "X-HM://" ++ payload ++ setupId) ∧
      payload.length = 9 ∧ (∀ b ∈ payload, isUpperBase36 b) ∧
      (SetupURI c setupId pin).map List.length = some (7 + 9 + setupId.length) := by
  have hlen := padded_length (packValue c pin) (packValue_lt_pow36 c pin)
  refine ⟨_, SetupURI_eq c setupId pin, hlen, ?_, ?_⟩
  · intro b hb
    rcases List.mem_append.mp hb with h | h
    · rw [List.eq_of_mem_replicate h]
      decide
    · exact upperDigits_isUpperBase36 _ b h
  · rw [SetupURI_eq c setupId pin]
    simp only [Option.map_some', List.length_append, hlen]
    rfl

/-- C2: for a pin that is a non-empty string of decimal digits with value
`p < 2 ^ 27`, the 9-byte payload of `SetupURI(c, setupId, pin)` read as a
base-36 number is `c * 2 ^ 31 + 2 * 2 ^ 27 + p`, which is also the packed
value. -/
theorem SetupURI_payload_value (c : Byte) (setupId pin : GoString) (hne : pin ≠ [])
    (hd : ∀ b ∈ pin, isDigit b) (hp : decVal pin < 2 ^ 27) :
    ∃ uri, SetupURI c setupId pin = some uri ∧
      readBase36 (payloadOf uri) = c.val * 2 ^ 31 + 2 * 2 ^ 27 + decVal pin ∧
      packValue c pin = c.val * 2 ^ 31 + 2 * 2 ^ 27 + decVal pin := by
  have hlen := padded_length (packValue c pin) (packValue_lt_pow36 c pin)
  refine ⟨_, SetupURI_eq c setupId pin, ?_, packValue_of_valid c pin hne hd hp⟩
  rw [payloadOf_append _ _ _ (by decide) hlen, readBase36_replicate_append,
    readBase36_upperDigits]
  exact packValue_of_valid c pin hne hd hp

/-- Witness of C2: category 2, setup-id `ABCD`, pin `12345678`. -/
theorem SetupURI_payload_value_witness :
    (str "12345678" ≠ [] ∧ (∀ b ∈ str "12345678", isDigit b) ∧
        decVal (str "12345678") < 2 ^ 27) ∧
      ∃ uri, SetupURI 2 (str "ABCD") (str "12345678") = some uri ∧
        readBase36 (payloadOf uri) = (2 : Byte).val * 2 ^ 31 + 2 * 2 ^ 27 +
          decVal (str "12345678") ∧
        packValue 2 (str "12345678") = (2 : Byte).val * 2 ^ 31 + 2 * 2 ^ 27 +
          decVal (str "12345678") :=
  ⟨⟨by decide, by decide, by decide⟩,
    SetupURI_payload_value 2 (str "ABCD") (str "12345678") (by decide) (by decide) (by decide)⟩

/-- C3, at the failing input: for category 0 and pin `134217728` (the number
`2 ^ 27`) the packed value is `2 ^ 28 + 2 ^ 27` and its transport-flags
field, bits 27..30, is 3 and not the constant 2. -/
theorem SetupURI_flags_overlap :
    packValue 0 (str "134217728") = 2 ^ 28 + 2 ^ 27 ∧
      flagsField (packValue 0 (str "134217728")) = 3 ∧
      SetupURI 0 (str "") (str "134217728") = some (str "X-HM://0006NQ96O") := by
  decide

/-- C4: for a pin that does not parse as a base-10 unsigned 64-bit integer
(the empty string, a string with a byte that is not a decimal digit, or a
digit string whose value is above `2 ^ 64 - 1`), `SetupURI` returns the same
string as for the pin `"0"`, and it does return a string. -/
theorem SetupURI_malformed_pin (c : Byte) (setupId pin : GoString)
    (h : pin = [] ∨ (∃ b ∈ pin, ¬ isDigit b) ∨ 2 ^ 64 ≤ decVal pin) :
    SetupURI c setupId pin = SetupURI c setupId (str "0") ∧
      (SetupURI c setupId pin).isSome = true := by
  constructor
  · unfold SetupURI
    rw [packValue_of_invalid c pin (ParseUint_invalid pin h)]
  · rw [SetupURI_eq]; rfl

/-- Witness of C4: the signed pin `+5`. -/
theorem SetupURI_malformed_pin_witness :
    (str "+5" = [] ∨ (∃ b ∈ str "+5", ¬ isDigit b) ∨ 2 ^ 64 ≤ decVal (str "+5")) ∧
      (SetupURI 2 (str "ABCD") (str "+5") = SetupURI 2 (str "ABCD") (str "0") ∧
        (SetupURI 2 (str "ABCD") (str "+5")).isSome = true) :=
  ⟨Or.inr (Or.inl ⟨43, by decide, by decide⟩),
    SetupURI_malformed_pin 2 (str "ABCD") (str "+5")
      (Or.inr (Or.inl ⟨43, by decide, by decide⟩))⟩

/-- C5: `SetupURI(0x02, "ABCD", "00000000")` is the string
`X-HM://0023GXK3KABCD`; its payload `0023GXK3K` is the base-36 rendering of
`2 * 2 ^ 31 + 2 * 2 ^ 27 = 4563402752` left-padded to 9 bytes. -/
theorem SetupURI_example :
    SetupURI 0x02 (str "ABCD") (str "00000000") = some (str "X-HM://0023GXK3KABCD") ∧
      packValue 0x02 (str "00000000") = 4563402752 ∧
      readBase36 (str "0023GXK3K") = 2 * 2 ^ 31 + 2 * 2 ^ 27 := by
  decide

/-- C6: for every category byte and pin the packed value is below `36 ^ 9`,
its base-36 rendering has at most 9 bytes, the length `9 - len(padded)`
passed to `make` is not negative, so `make` does not panic and nothing is cut
off. -/
theorem SetupURI_pad_nonneg (c : Byte) (pin : GoString) :
    packValue c pin < 36 ^ 9 ∧
      (ToUpper (FormatUint (packValue c pin) 36)).length ≤ 9 ∧
      (0 : Int) ≤ 9 - ((ToUpper (FormatUint (packValue c pin) 36)).length : Int) ∧
      (makePad (9 - ((ToUpper (FormatUint (packValue c pin) 36)).length : Int))).isSome = true ∧
      (paddedOf (packValue c pin)).isSome = true := by
  have hlt := packValue_lt_pow36 c pin
  have hlen := upperDigits_length_le (packValue c pin) hlt
  rw [ToUpper_FormatUint _ hlt, paddedOf_eq _ hlt]
  have hnn : ¬ ((9 : Int) - ((upperDigits (packValue c pin)).length : Int) < 0) := by omega
  refine ⟨hlt, hlen, by omega, ?_, rfl⟩
  unfold makePad
  rw [if_neg hnn]
  rfl


/-- C7: in every state the loop of `Run` reaches from its entry state, by any
sequence of cancel, timer-fire and submit events and with any factory
(succeeding or failing), at most one instance is started and not yet stopped;
and every start in the log of effects happens when no instance is serving. -/
theorem at_most_one_running {Acc Err : Type} (NewServer : Nat → List Acc → Option Err)
    (s : DynamicServer Acc) (evs : List (Int × Event Acc)) :
    (alive (runEvents NewServer (loopEntry s) evs).log).length ≤ 1 ∧
      ∀ pre srv post,
        (runEvents NewServer (loopEntry s) evs).log = pre ++ Effect.start srv :: post →
          alive pre = [] := by
  have h := runEvents_invariant NewServer evs (loopEntry s) (loopEntry_invariant s)
  exact ⟨consistent_length_le _ h.1, h.2⟩

/-- C8: with a positive debounce duration, an instance running (its cancel
function held in `stopServer`) and a factory that succeeds, a non-empty burst
of submissions ending with configuration `c` at time `t`, followed by one
timer fire: no prefix of the submissions adds an effect to the log (no stop
and no start at a submission), the submissions leave the timer armed for
`t + DebounceDuration`, and after the timer fire the log has gained exactly
one stop of the running instance followed by one start, of an instance built
from `c`. The case `burst = [(t1, C1)]`, `c = C2` is the sequence
submit(C1), submit(C2), timer-fire. -/
theorem debounce_burst_one_restart {Acc Err : Type} (NewServer : Nat → List Acc → Option Err)
    (st : RunState Acc Err) (k : Nat) (burst : List (Int × List Acc)) (t : Int)
    (c : List Acc) (tf : Int)
    (hD : 0 < st.s.DebounceDuration) (hrun : st.stopServer = some k) (hloop : st.ret = none)
    (hok : ∀ n as, NewServer n as = none) :
    (∀ i, (runEvents NewServer st ((submissions (burst ++ [(t, c)])).take i)).log = st.log) ∧
      (runEvents NewServer st (submissions (burst ++ [(t, c)]))).timer =
        some (t + st.s.DebounceDuration) ∧
      (runEvents NewServer st
          (submissions (burst ++ [(t, c)]) ++ [(tf, Event.timerFire)])).log =
        st.log ++ [Effect.cancel k,
          Effect.start ⟨st.contexts, c, st.s.SetupId, st.s.Pin⟩] ∧
      (runEvents NewServer st
          (submissions (burst ++ [(t, c)]) ++ [(tf, Event.timerFire)])).stopServer =
        some st.contexts ∧
      (runEvents NewServer st
          (submissions (burst ++ [(t, c)]) ++ [(tf, Event.timerFire)])).timer = none ∧
      (runEvents NewServer st
          (submissions (burst ++ [(t, c)]) ++ [(tf, Event.timerFire)])).ret = none := by
  have hmid := burst_debounce NewServer burst t c st k hD hrun hloop
  have hfin : runEvents NewServer st
      (submissions (burst ++ [(t, c)]) ++ [(tf, Event.timerFire)]) =
      { st with
        s := { st.s with as := c }
        contexts := st.contexts + 1
        stopServer := some st.contexts
        log := st.log ++ [Effect.cancel k,
          Effect.start ⟨st.contexts, c, st.s.SetupId, st.s.Pin⟩]
        timer := none } := by
    rw [runEvents_append, hmid]
    exact step_timerFire_running NewServer tf _ k hrun hloop (hok _ _)
  refine ⟨?_, ?_, ?_, ?_, ?_, ?_⟩
  · intro i
    rw [submissions_take]
    exact burst_debounce_log NewServer _ st k hD hrun hloop
  · rw [hmid]
  · rw [hfin]
  · rw [hfin]
  · rw [hfin]
  · rw [hfin]; exact hloop

/-- Witness of C8: debounce duration 5, an instance running under context 0,
submissions `[1, 2]` at time 10 and `[3]` at time 12, timer fire at time 20. -/
theorem debounce_burst_one_restart_witness :
    (0 < sampleRunning.s.DebounceDuration ∧ sampleRunning.stopServer = some 0 ∧
        sampleRunning.ret = none ∧ ∀ n as, alwaysOk n as = none) ∧
      ((∀ i, (runEvents alwaysOk sampleRunning
            ((submissions ([(10, [1, 2])] ++ [(12, [3])])).take i)).log = sampleRunning.log) ∧
        (runEvents alwaysOk sampleRunning (submissions ([(10, [1, 2])] ++ [(12, [3])]))).timer =
          some (12 + sampleRunning.s.DebounceDuration) ∧
        (runEvents alwaysOk sampleRunning
            (submissions ([(10, [1, 2])] ++ [(12, [3])]) ++ [(20, Event.timerFire)])).log =
          sampleRunning.log ++ [Effect.cancel 0,
            Effect.start ⟨sampleRunning.contexts, [3], sampleRunning.s.SetupId,
              sampleRunning.s.Pin⟩] ∧
        (runEvents alwaysOk sampleRunning
            (submissions ([(10, [1, 2])] ++ [(12, [3])]) ++ [(20, Event.timerFire)])).stopServer =
          some sampleRunning.contexts ∧
        (runEvents alwaysOk sampleRunning
            (submissions ([(10, [1, 2])] ++ [(12, [3])]) ++ [(20, Event.timerFire)])).timer =
          none ∧
        (runEvents alwaysOk sampleRunning
            (submissions ([(10, [1, 2])] ++ [(12, [3])]) ++ [(20, Event.timerFire)])).ret =
          none) :=
  ⟨⟨by decide, rfl, rfl, fun _ _ => rfl⟩,
    debounce_burst_one_restart alwaysOk sampleRunning 0 [(10, [1, 2])] 12 [3] 20
      (by decide) rfl rfl (fun _ _ => rfl)⟩

/-- C9: whatever the debounce duration (zero, positive or negative), in a
state the loop reaches in which no instance is running, handling a submission
of `c` with a factory call that succeeds starts an instance built from `c` in
that same step: the log gains exactly that start, the timer is not armed,
and afterwards exactly one instance, the new one, is serving. -/
theorem first_submit_starts {Acc Err : Type} (NewServer : Nat → List Acc → Option Err)
    (st : RunState Acc Err) (t : Int) (c : List Acc)
    (hreach : ∃ s0 evs, st = runEvents NewServer (loopEntry s0) evs)
    (hidle : st.stopServer = none) (hloop : st.ret = none)
    (hok : NewServer st.contexts c = none) :
    (step NewServer t st (Event.submit c)).log =
        st.log ++ [Effect.start ⟨st.contexts, c, st.s.SetupId, st.s.Pin⟩] ∧
      (step NewServer t st (Event.submit c)).timer = none ∧
      (step NewServer t st (Event.submit c)).stopServer = some st.contexts ∧
      alive (step NewServer t st (Event.submit c)).log =
        [⟨st.contexts, c, st.s.SetupId, st.s.Pin⟩] ∧
      (step NewServer t st (Event.submit c)).ret = none := by
  have hstep := step_submit_immediate NewServer t st c
    (fun h => h.2 hidle) hloop hok
  have hlog : (step NewServer t st (Event.submit c)).log =
      st.log ++ [Effect.start ⟨st.contexts, c, st.s.SetupId, st.s.Pin⟩] := by
    rw [hstep]; simp [hidle]
  have halive : alive st.log = [] := by
    rcases hreach with ⟨s0, evs, rfl⟩
    have hinv := (runEvents_invariant NewServer evs (loopEntry s0) (loopEntry_invariant s0)).1
    rcases hinv with ⟨_, h2⟩ | ⟨srv, h1, _⟩
    · exact h2
    · rw [hidle] at h1; cases h1
  refine ⟨hlog, ?_, ?_, ?_, ?_⟩
  · rw [hstep]
  · rw [hstep]
  · rw [hlog, alive_append_single, halive]; rfl
  · rw [hstep]; exact hloop

/-- Witness of C9: debounce duration 5, the first submission `[1]` at time 0. -/
theorem first_submit_starts_witness :
    ((∃ s0 evs, (loopEntry (sampleServer 5) : RunState Nat Unit) =
          runEvents alwaysOk (loopEntry s0) evs) ∧
        (loopEntry (sampleServer 5) : RunState Nat Unit).stopServer = none ∧
        (loopEntry (sampleServer 5) : RunState Nat Unit).ret = none ∧
        alwaysOk (loopEntry (sampleServer 5) : RunState Nat Unit).contexts [1] = none) ∧
      ((step alwaysOk 0 (loopEntry (sampleServer 5)) (Event.submit [1])).log =
          (loopEntry (sampleServer 5) : RunState Nat Unit).log ++
            [Effect.start ⟨0, [1], str "ABCD", str "00102003"⟩] ∧
        (step alwaysOk 0 (loopEntry (sampleServer 5)) (Event.submit [1])).timer = none ∧
        (step alwaysOk 0 (loopEntry (sampleServer 5)) (Event.submit [1])).stopServer = some 0 ∧
        alive (step alwaysOk 0 (loopEntry (sampleServer 5)) (Event.submit [1])).log =
          [⟨0, [1], str "ABCD", str "00102003"⟩] ∧
        (step alwaysOk 0 (loopEntry (sampleServer 5)) (Event.submit [1])).ret = none) :=
  ⟨⟨⟨sampleServer 5, [], rfl⟩, rfl, rfl, rfl⟩,
    first_submit_starts alwaysOk (loopEntry (sampleServer 5)) 0 [1]
      ⟨sampleServer 5, [], rfl⟩ rfl rfl rfl⟩

/-- C10: with debounce duration 0 and a factory that succeeds, from a state
with no instance running and the timer stopped, the submissions `C1..Cn` add
to the log exactly `start C1, stop C1, start C2, ..., stop C(n-1), start Cn`
(`immediateLog`): `n` starts, the i-th built from `Ci`, the instance of `Ci`
stopped before that of `C(i+1)` is started; and after every prefix of the
submissions the timer is stopped. -/
theorem immediate_restarts {Acc Err : Type} (NewServer : Nat → List Acc → Option Err)
    (st : RunState Acc Err) (cs : List (Int × List Acc))
    (hD : st.s.DebounceDuration = 0) (hidle : st.stopServer = none) (hloop : st.ret = none)
    (htimer : st.timer = none) (hok : ∀ n as, NewServer n as = none) :
    (runEvents NewServer st (submissions cs)).log =
        st.log ++ immediateLog st.s.SetupId st.s.Pin none st.contexts (cs.map Prod.snd) ∧
      startsOf (immediateLog st.s.SetupId st.s.Pin none st.contexts (cs.map Prod.snd)) =
        cs.map Prod.snd ∧
      (∀ i, (runEvents NewServer st ((submissions cs).take i)).timer = none) ∧
      (runEvents NewServer st (submissions cs)).ret = none := by
  have hD' : ¬ 0 < st.s.DebounceDuration := by omega
  have h := burst_immediate NewServer hok cs st hD' hloop htimer
  refine ⟨?_, startsOf_immediateLog _ _ _ _ _, ?_, h.2.2⟩
  · rw [h.1, hidle]
  · intro i
    rw [submissions_take]
    exact (burst_immediate NewServer hok (cs.take i) st hD' hloop htimer).2.1

/-- Witness of C10: debounce duration 0, submissions `[7]` then `[8]` from the
entry state: start of `[7]` under context 0, its stop, start of `[8]` under
context 1. -/
theorem immediate_restarts_witness :
    ((loopEntry (sampleServer 0) : RunState Nat Unit).s.DebounceDuration = 0 ∧
        (loopEntry (sampleServer 0) : RunState Nat Unit).stopServer = none ∧
        (loopEntry (sampleServer 0) : RunState Nat Unit).ret = none ∧
        (loopEntry (sampleServer 0) : RunState Nat Unit).timer = none ∧
        ∀ n as, alwaysOk n as = none) ∧
      ((runEvents alwaysOk (loopEntry (sampleServer 0)) (submissions [(1, [7]), (2, [8])])).log =
          [] ++ [Effect.start ⟨0, [7], str "ABCD", str "00102003"⟩, Effect.cancel 0,
            Effect.start ⟨1, [8], str "ABCD", str "00102003"⟩] ∧
        startsOf ([Effect.start ⟨0, [7], str "ABCD", str "00102003"⟩, Effect.cancel 0,
            Effect.start ⟨1, [8], str "ABCD", str "00102003"⟩] : List (Effect Nat)) =
          [[7], [8]] ∧
        (∀ i, (runEvents alwaysOk (loopEntry (sampleServer 0) : RunState Nat Unit)
            ((submissions [(1, [7]), (2, [8])]).take i)).timer = none) ∧
        (runEvents alwaysOk (loopEntry (sampleServer 0) : RunState Nat Unit)
            (submissions [(1, [7]), (2, [8])])).ret = none) :=
  ⟨⟨rfl, rfl, rfl, rfl, fun _ _ => rfl⟩,
    immediate_restarts alwaysOk (loopEntry (sampleServer 0)) [(1, [7]), (2, [8])]
      rfl rfl rfl rfl (fun _ _ => rfl)⟩

/-- C11: in every state the loop reaches in which `Run` has not returned
(idle, running, or running with the timer armed), handling the cancellation
event makes `Run` return `nil`; the only effect is the call of the cancel
function of the running instance, if there is one; afterwards no instance is
serving and no later event has an effect. -/
theorem cancel_returns_nil {Acc Err : Type} (NewServer : Nat → List Acc → Option Err)
    (st : RunState Acc Err) (t : Int)
    (hreach : ∃ s0 evs, st = runEvents NewServer (loopEntry s0) evs)
    (hloop : st.ret = none) :
    (step NewServer t st Event.cancel).ret = some none ∧
      (step NewServer t st Event.cancel).log =
        st.log ++ st.stopServer.toList.map Effect.cancel ∧
      (step NewServer t st Event.cancel).stopServer = none ∧
      alive (step NewServer t st Event.cancel).log = [] ∧
      ∀ evs, runEvents NewServer (step NewServer t st Event.cancel) evs =
        step NewServer t st Event.cancel := by
  have hcons : Consistent st := by
    rcases hreach with ⟨s0, evs, rfl⟩
    exact (reachable_loopInv NewServer s0 evs).1
  have heq : step NewServer t st Event.cancel =
      { st with
        stopServer := none
        log := st.log ++ st.stopServer.toList.map Effect.cancel
        ret := some none } := by
    rcases step_cases NewServer t st Event.cancel with
      ⟨h, _⟩ | ⟨_, _, h⟩ | ⟨_, c, h, _⟩ | ⟨_, c, e, h, _⟩ | ⟨_, c, h, _⟩
    · rw [hloop] at h; cases h
    · exact h
    · cases h
    · cases h
    · cases h
  refine ⟨by rw [heq], by rw [heq], by rw [heq], ?_, ?_⟩
  · rw [heq]; exact alive_stop st hcons
  · intro evs
    exact runEvents_returned NewServer evs _ (by rw [heq]; rfl)

/-- Witness of C11: cancellation while one instance runs under context 0. -/
theorem cancel_returns_nil_witness :
    ((∃ s0 evs, sampleRunning = runEvents alwaysOk (loopEntry s0) evs) ∧
        sampleRunning.ret = none) ∧
      ((step alwaysOk 9 sampleRunning Event.cancel).ret = some none ∧
        (step alwaysOk 9 sampleRunning Event.cancel).log =
          sampleRunning.log ++ sampleRunning.stopServer.toList.map Effect.cancel ∧
        (step alwaysOk 9 sampleRunning Event.cancel).stopServer = none ∧
        alive (step alwaysOk 9 sampleRunning Event.cancel).log = [] ∧
        ∀ evs, runEvents alwaysOk (step alwaysOk 9 sampleRunning Event.cancel) evs =
          step alwaysOk 9 sampleRunning Event.cancel) :=
  ⟨⟨⟨sampleServer 5, submissions [(0, [1])], rfl⟩, rfl⟩,
    cancel_returns_nil alwaysOk sampleRunning 9
      ⟨sampleServer 5, submissions [(0, [1])], rfl⟩ rfl⟩

/-- C12: in every state the loop reaches in which `Run` has not returned, for
every event that attempts a start (a timer fire, or a submission that is not
debounced) with accessories `c`: if the factory returns the error `e`, `Run`
returns exactly `e`; the effects are the stop of the running instance, if
any, then the cancellation of the context created for the failed instance;
no instance is serving; and no later event has an effect (no retry). -/
theorem factory_error_returned {Acc Err : Type} (NewServer : Nat → List Acc → Option Err)
    (st : RunState Acc Err) (t : Int) (ev : Event Acc) (c : List Acc) (e : Err)
    (hreach : ∃ s0 evs, st = runEvents NewServer (loopEntry s0) evs)
    (hloop : st.ret = none) (hcfg : startConfig st ev = some c)
    (hfail : NewServer st.contexts c = some e) :
    (step NewServer t st ev).ret = some (some e) ∧
      (step NewServer t st ev).log =
        st.log ++ (st.stopServer.toList.map Effect.cancel ++ [Effect.cancel st.contexts]) ∧
      alive (step NewServer t st ev).log = [] ∧
      ∀ evs, runEvents NewServer (step NewServer t st ev) evs = step NewServer t st ev := by
  have hcons : Consistent st := by
    rcases hreach with ⟨s0, evs, rfl⟩
    exact (reachable_loopInv NewServer s0 evs).1
  have heq : step NewServer t st ev =
      { st with
        s := { st.s with as := c }
        stopServer := none
        contexts := st.contexts + 1
        log := st.log ++ (st.stopServer.toList.map Effect.cancel ++
          [Effect.cancel st.contexts])
        ret := some (some e) } := by
    rcases step_cases NewServer t st ev with
      ⟨h, _⟩ | ⟨_, hev, _⟩ | ⟨_, c2, _, h, _⟩ | ⟨_, c2, e2, h, hf, heq⟩ | ⟨_, c2, h, hf, _⟩
    · rw [hloop] at h; cases h
    · subst hev; cases hcfg
    · rw [hcfg] at h; cases h
    · rw [hcfg] at h; cases h
      rw [hfail] at hf; cases hf
      exact heq
    · rw [hcfg] at h; cases h
      rw [hfail] at hf; cases hf
  refine ⟨by rw [heq], by rw [heq], ?_, ?_⟩
  · rw [heq]; exact alive_stop_cancel st hcons _
  · intro evs
    exact runEvents_returned NewServer evs _ (by rw [heq]; rfl)

/-- Witness of C12: one instance runs under context 0; the factory fails with
error 7 at the restart on a timer fire. -/
theorem factory_error_returned_witness :
    ((∃ s0 evs, runEvents failsSecond (loopEntry (sampleServer 5)) (submissions [(0, [1])]) =
          runEvents failsSecond (loopEntry s0) evs) ∧
        (runEvents failsSecond (loopEntry (sampleServer 5)) (submissions [(0, [1])])).ret =
          none ∧
        startConfig (runEvents failsSecond (loopEntry (sampleServer 5))
          (submissions [(0, [1])])) Event.timerFire = some [1] ∧
        failsSecond (runEvents failsSecond (loopEntry (sampleServer 5))
          (submissions [(0, [1])])).contexts [1] = some 7) ∧
      ((step failsSecond 9 (runEvents failsSecond (loopEntry (sampleServer 5))
            (submissions [(0, [1])])) Event.timerFire).ret = some (some 7) ∧
        (step failsSecond 9 (runEvents failsSecond (loopEntry (sampleServer 5))
            (submissions [(0, [1])])) Event.timerFire).log =
          (runEvents failsSecond (loopEntry (sampleServer 5)) (submissions [(0, [1])])).log ++
            ((runEvents failsSecond (loopEntry (sampleServer 5))
                (submissions [(0, [1])])).stopServer.toList.map Effect.cancel ++
              [Effect.cancel (runEvents failsSecond (loopEntry (sampleServer 5))
                (submissions [(0, [1])])).contexts]) ∧
        alive (step failsSecond 9 (runEvents failsSecond (loopEntry (sampleServer 5))
            (submissions [(0, [1])])) Event.timerFire).log = [] ∧
        ∀ evs, runEvents failsSecond (step failsSecond 9 (runEvents failsSecond
            (loopEntry (sampleServer 5)) (submissions [(0, [1])])) Event.timerFire) evs =
          step failsSecond 9 (runEvents failsSecond (loopEntry (sampleServer 5))
            (submissions [(0, [1])])) Event.timerFire) :=
  ⟨⟨⟨sampleServer 5, submissions [(0, [1])], rfl⟩, rfl, rfl, rfl⟩,
    factory_error_returned failsSecond
      (runEvents failsSecond (loopEntry (sampleServer 5)) (submissions [(0, [1])]))
      9 Event.timerFire [1] 7 ⟨sampleServer 5, submissions [(0, [1])], rfl⟩ rfl rfl rfl⟩

/-- C13: with the values of the random source as inputs (`r1`, `q1` for the
first call, `r2`, `q2` for the second): after a first call of `SetupUri` the
fields `SetupId` and `Pin` are non-empty; a second call leaves the receiver
unchanged and returns the same string, which is a string and not a panic;
and a non-empty `SetupId` or `Pin` supplied by the caller is not
overwritten. -/
theorem SetupUri_idempotent {Acc : Type} (s : DynamicServer Acc) (r1 q1 r2 q2 : Nat) :
    (SetupUri s r1 q1).1.SetupId ≠ [] ∧ (SetupUri s r1 q1).1.Pin ≠ [] ∧
      (SetupUri (SetupUri s r1 q1).1 r2 q2).1 = (SetupUri s r1 q1).1 ∧
      (SetupUri (SetupUri s r1 q1).1 r2 q2).2 = (SetupUri s r1 q1).2 ∧
      (SetupUri s r1 q1).2.isSome = true ∧
      (s.SetupId ≠ [] → (SetupUri s r1 q1).1.SetupId = s.SetupId) ∧
      (s.Pin ≠ [] → (SetupUri s r1 q1).1.Pin = s.Pin) := by
  have hne := resolveIdentity_nonempty s r1 q1
  have hfix := resolveIdentity_of_nonempty (resolveIdentity s r1 q1) r2 q2 hne.1 hne.2
  have hkeep := resolveIdentity_keeps s r1 q1
  refine ⟨hne.1, hne.2, ?_, ?_, ?_, hkeep.1, hkeep.2.1⟩
  · show resolveIdentity (resolveIdentity s r1 q1) r2 q2 = resolveIdentity s r1 q1
    exact hfix
  · show SetupURI (resolveIdentity (resolveIdentity s r1 q1) r2 q2).BridgeType
        (resolveIdentity (resolveIdentity s r1 q1) r2 q2).SetupId
        (resolveIdentity (resolveIdentity s r1 q1) r2 q2).Pin =
      SetupURI (resolveIdentity s r1 q1).BridgeType (resolveIdentity s r1 q1).SetupId
        (resolveIdentity s r1 q1).Pin
    rw [hfix]
  · show (SetupURI (resolveIdentity s r1 q1).BridgeType (resolveIdentity s r1 q1).SetupId
        (resolveIdentity s r1 q1).Pin).isSome = true
    rw [SetupURI_eq]; rfl

/-- C14: with a positive debounce duration `D` and an instance running, a
submission handled at time `t1` sets the deadline of the timer to `t1 + D`
whatever the timer was before; after a second submission at `t2 > t1` the one
deadline is `t2 + D`, the timer is due exactly from `t2 + D` on, and it is not
due at `t1 + D`. -/
theorem debounce_deadline {Acc Err : Type} (NewServer : Nat → List Acc → Option Err)
    (st : RunState Acc Err) (k : Nat) (t1 t2 : Int) (c1 c2 : List Acc)
    (hD : 0 < st.s.DebounceDuration) (hrun : st.stopServer = some k) (hloop : st.ret = none)
    (hlt : t1 < t2) :
    (step NewServer t1 st (Event.submit c1)).timer = some (t1 + st.s.DebounceDuration) ∧
      (runEvents NewServer st [(t1, Event.submit c1), (t2, Event.submit c2)]).timer =
        some (t2 + st.s.DebounceDuration) ∧
      (∀ now, timerDue (runEvents NewServer st
          [(t1, Event.submit c1), (t2, Event.submit c2)]) now ↔
        t2 + st.s.DebounceDuration ≤ now) ∧
      ¬ timerDue (runEvents NewServer st [(t1, Event.submit c1), (t2, Event.submit c2)])
        (t1 + st.s.DebounceDuration) := by
  have h1 := step_submit_debounce NewServer t1 st c1 k hD hrun hloop
  have h2 : runEvents NewServer st [(t1, Event.submit c1), (t2, Event.submit c2)] =
      { st with s := { st.s with as := c2 }, timer := some (t2 + st.s.DebounceDuration) } :=
    burst_debounce NewServer [(t1, c1)] t2 c2 st k hD hrun hloop
  have hdue : ∀ now, timerDue (runEvents NewServer st
      [(t1, Event.submit c1), (t2, Event.submit c2)]) now ↔
      t2 + st.s.DebounceDuration ≤ now := by
    intro now
    rw [h2]
    unfold timerDue
    constructor
    · rintro ⟨d, hd, hle⟩
      cases hd
      exact hle
    · intro hle
      exact ⟨_, rfl, hle⟩
  refine ⟨by rw [h1], by rw [h2], hdue, ?_⟩
  rw [hdue]
  omega

/-- Witness of C14: debounce duration 5, an instance running, submissions at
times 10 and 12: the deadline is 17, not 15. -/
theorem debounce_deadline_witness :
    (0 < sampleRunning.s.DebounceDuration ∧ sampleRunning.stopServer = some 0 ∧
        sampleRunning.ret = none ∧ (10 : Int) < 12) ∧
      ((step alwaysOk 10 sampleRunning (Event.submit [2])).timer =
          some (10 + sampleRunning.s.DebounceDuration) ∧
        (runEvents alwaysOk sampleRunning
            [(10, Event.submit [2]), (12, Event.submit [3])]).timer =
          some (12 + sampleRunning.s.DebounceDuration) ∧
        (∀ now, timerDue (runEvents alwaysOk sampleRunning
            [(10, Event.submit [2]), (12, Event.submit [3])]) now ↔
          12 + sampleRunning.s.DebounceDuration ≤ now) ∧
        ¬ timerDue (runEvents alwaysOk sampleRunning
            [(10, Event.submit [2]), (12, Event.submit [3])])
          (10 + sampleRunning.s.DebounceDuration)) :=
  ⟨⟨by decide, rfl, rfl, by decide⟩,
    debounce_deadline alwaysOk sampleRunning 0 10 12 [2] [3] (by decide) rfl rfl (by decide)⟩

/-- C15: within one execution of `Run` (any random values, any factory, any
events) the identity resolved by the prologue is non-empty, the loop leaves
`SetupId` and `Pin` of the receiver as resolved, and every instance started,
on the immediate path or on the timer path, carries that `SetupId` and that
`Pin`. -/
theorem instances_share_identity {Acc Err : Type} (NewServer : Nat → List Acc → Option Err)
    (s : DynamicServer Acc) (r q : Nat) (evs : List (Int × Event Acc)) :
    (resolveIdentity s r q).SetupId ≠ [] ∧ (resolveIdentity s r q).Pin ≠ [] ∧
      (Run NewServer s r q evs).s.SetupId = (resolveIdentity s r q).SetupId ∧
      (Run NewServer s r q evs).s.Pin = (resolveIdentity s r q).Pin ∧
      ∀ srv, Effect.start srv ∈ (Run NewServer s r q evs).log →
        srv.SetupId = (resolveIdentity s r q).SetupId ∧
          srv.Pin = (resolveIdentity s r q).Pin := by
  have hne := resolveIdentity_nonempty s r q
  have hinv := reachable_loopInv NewServer (resolveIdentity s r q) evs
  exact ⟨hne.1, hne.2, hinv.2.1, hinv.2.2.1, hinv.2.2.2.1⟩

/-- C16: in every state the loop reaches in which `Run` has not returned, if
the timer is armed then the debounce duration is positive and exactly one
instance is running, the one `stopServer` cancels; so a timer fire stops that
instance and then starts a new one from the current accessories (or, when the
factory fails, stops it and cancels the context of the failed start): it is
never a start with no instance running. -/
theorem timer_armed_implies_running {Acc Err : Type}
    (NewServer : Nat → List Acc → Option Err) (st : RunState Acc Err) (d : Int)
    (hreach : ∃ s0 evs, st = runEvents NewServer (loopEntry s0) evs)
    (hloop : st.ret = none) (harmed : st.timer = some d) :
    0 < st.s.DebounceDuration ∧
      ∃ srv : Instance Acc, st.stopServer = some srv.ctx ∧ alive st.log = [srv] ∧
        ∀ tf : Int,
          (NewServer st.contexts st.s.as = none →
            (step NewServer tf st Event.timerFire).log =
              st.log ++ [Effect.cancel srv.ctx,
                Effect.start ⟨st.contexts, st.s.as, st.s.SetupId, st.s.Pin⟩]) ∧
          (∀ e, NewServer st.contexts st.s.as = some e →
            (step NewServer tf st Event.timerFire).log =
              st.log ++ [Effect.cancel srv.ctx, Effect.cancel st.contexts]) := by
  have hinv : LoopInv st.s.SetupId st.s.Pin st := by
    rcases hreach with ⟨s0, evs, rfl⟩
    have h := reachable_loopInv NewServer s0 evs
    have h1 := h.2.1
    have h2 := h.2.2.1
    rw [← h1, ← h2] at h
    exact h
  have ht := hinv.2.2.2.2.1 hloop (by rw [harmed]; simp)
  refine ⟨ht.1, ?_⟩
  rcases hinv.1 with ⟨h1, _⟩ | ⟨srv, h1, h2⟩
  · exact absurd h1 ht.2
  · refine ⟨srv, h1, h2, ?_⟩
    intro tf
    constructor
    · intro hok
      rw [step_timerFire_running NewServer tf st srv.ctx h1 hloop hok]
    · intro e hfail
      rw [step_timerFire_fail NewServer tf st srv.ctx e h1 hloop hfail]

/-- Witness of C16: debounce duration 5, the first submission at time 0
starts an instance, the second at time 10 arms the timer for 15. -/
theorem timer_armed_implies_running_witness :
    ((∃ s0 evs, runEvents alwaysOk (loopEntry (sampleServer 5))
            (submissions [(0, [1]), (10, [2])]) = runEvents alwaysOk (loopEntry s0) evs) ∧
        (runEvents alwaysOk (loopEntry (sampleServer 5))
          (submissions [(0, [1]), (10, [2])])).ret = none ∧
        (runEvents alwaysOk (loopEntry (sampleServer 5))
          (submissions [(0, [1]), (10, [2])])).timer = some 15) ∧
      (0 < (runEvents alwaysOk (loopEntry (sampleServer 5))
          (submissions [(0, [1]), (10, [2])])).s.DebounceDuration ∧
        ∃ srv : Instance Nat,
          (runEvents alwaysOk (loopEntry (sampleServer 5))
            (submissions [(0, [1]), (10, [2])])).stopServer = some srv.ctx ∧
          alive (runEvents alwaysOk (loopEntry (sampleServer 5))
            (submissions [(0, [1]), (10, [2])])).log = [srv] ∧
          ∀ tf : Int,
            (alwaysOk (runEvents alwaysOk (loopEntry (sampleServer 5))
                (submissions [(0, [1]), (10, [2])])).contexts
              (runEvents alwaysOk (loopEntry (sampleServer 5))
                (submissions [(0, [1]), (10, [2])])).s.as = none →
              (step alwaysOk tf (runEvents alwaysOk (loopEntry (sampleServer 5))
                  (submissions [(0, [1]), (10, [2])])) Event.timerFire).log =
                (runEvents alwaysOk (loopEntry (sampleServer 5))
                  (submissions [(0, [1]), (10, [2])])).log ++
                  [Effect.cancel srv.ctx,
                    Effect.start ⟨(runEvents alwaysOk (loopEntry (sampleServer 5))
                        (submissions [(0, [1]), (10, [2])])).contexts,
                      (runEvents alwaysOk (loopEntry (sampleServer 5))
                        (submissions [(0, [1]), (10, [2])])).s.as,
                      (runEvents alwaysOk (loopEntry (sampleServer 5))
                        (submissions [(0, [1]), (10, [2])])).s.SetupId,
                      (runEvents alwaysOk (loopEntry (sampleServer 5))
                        (submissions [(0, [1]), (10, [2])])).s.Pin⟩]) ∧
            (∀ e, alwaysOk (runEvents alwaysOk (loopEntry (sampleServer 5))
                (submissions [(0, [1]), (10, [2])])).contexts
              (runEvents alwaysOk (loopEntry (sampleServer 5))
                (submissions [(0, [1]), (10, [2])])).s.as = some e →
              (step alwaysOk tf (runEvents alwaysOk (loopEntry (sampleServer 5))
                  (submissions [(0, [1]), (10, [2])])) Event.timerFire).log =
                (runEvents alwaysOk (loopEntry (sampleServer 5))
                  (submissions [(0, [1]), (10, [2])])).log ++
                  [Effect.cancel srv.ctx,
                    Effect.cancel (runEvents alwaysOk (loopEntry (sampleServer 5))
                      (submissions [(0, [1]), (10, [2])])).contexts])) :=
  ⟨⟨⟨sampleServer 5, submissions [(0, [1]), (10, [2])], rfl⟩, rfl, rfl⟩,
    timer_armed_implies_running alwaysOk
      (runEvents alwaysOk (loopEntry (sampleServer 5)) (submissions [(0, [1]), (10, [2])]))
      15 ⟨sampleServer 5, submissions [(0, [1]), (10, [2])], rfl⟩ rfl rfl⟩

/-- C17: in every state the loop reaches, with any factory, an instance that
is serving while the timer is not armed was built from the current
accessories of the receiver, the most recently submitted ones. -/
theorem running_instance_current {Acc Err : Type} (NewServer : Nat → List Acc → Option Err)
    (st : RunState Acc Err) (srv : Instance Acc)
    (hreach : ∃ s0 evs, st = runEvents NewServer (loopEntry s0) evs)
    (hrun : srv ∈ alive st.log) (htimer : st.timer = none) :
    srv.accessories = st.s.as := by
  rcases hreach with ⟨s0, evs, rfl⟩
  exact (reachable_loopInv NewServer s0 evs).2.2.2.2.2 htimer srv hrun

/-- Witness of C17: after the first submission `[1]` the instance under
context 0 serves the accessories `[1]`. -/
theorem running_instance_current_witness :
    ((∃ s0 evs, sampleRunning = runEvents alwaysOk (loopEntry s0) evs) ∧
        (⟨0, [1], str "ABCD", str "00102003"⟩ : Instance Nat) ∈ alive sampleRunning.log ∧
        sampleRunning.timer = none) ∧
      (⟨0, [1], str "ABCD", str "00102003"⟩ : Instance Nat).accessories =
        sampleRunning.s.as :=
  ⟨⟨⟨sampleServer 5, submissions [(0, [1])], rfl⟩, List.mem_singleton.mpr rfl, rfl⟩,
    running_instance_current alwaysOk sampleRunning ⟨0, [1], str "ABCD", str "00102003"⟩
      ⟨sampleServer 5, submissions [(0, [1])], rfl⟩ (List.mem_singleton.mpr rfl) rfl⟩

/-- C18: for two inputs whose pins are non-empty strings of decimal digits
with values below `2 ^ 27`, equal results of `SetupURI` imply equal
categories, equal numeric PINs and equal setup-ids. -/
theorem SetupURI_injective (c1 c2 : Byte) (id1 id2 pin1 pin2 : GoString)
    (hne1 : pin1 ≠ []) (hd1 : ∀ b ∈ pin1, isDigit b) (hp1 : decVal pin1 < 2 ^ 27)
    (hne2 : pin2 ≠ []) (hd2 : ∀ b ∈ pin2, isDigit b) (hp2 : decVal pin2 < 2 ^ 27)
    (heq : SetupURI c1 id1 pin1 = SetupURI c2 id2 pin2) :
    c1 = c2 ∧ decVal pin1 = decVal pin2 ∧ id1 = id2 := by
  have h := packValue_eq_of_SetupURI_eq c1 c2 id1 id2 pin1 pin2 heq
  have hv := h.1
  rw [packValue_of_valid c1 pin1 hne1 hd1 hp1, packValue_of_valid c2 pin2 hne2 hd2 hp2] at hv
  have hc1 : c1.val < 256 := c1.isLt
  have hc2 : c2.val < 256 := c2.isLt
  norm_num at hp1 hp2 hv
  refine ⟨Fin.ext (by omega), by omega, h.2⟩

/-- Witness of C18: the pins `00000012` and `12` denote the same number and
give the same URI. -/
theorem SetupURI_injective_witness :
    (str "00000012" ≠ [] ∧ (∀ b ∈ str "00000012", isDigit b) ∧
        decVal (str "00000012") < 2 ^ 27 ∧
        str "12" ≠ [] ∧ (∀ b ∈ str "12", isDigit b) ∧ decVal (str "12") < 2 ^ 27 ∧
        SetupURI 2 (str "ABCD") (str "00000012") = SetupURI 2 (str "ABCD") (str "12")) ∧
      ((2 : Byte) = 2 ∧ decVal (str "00000012") = decVal (str "12") ∧
        str "ABCD" = str "ABCD") :=
  ⟨⟨by decide, by decide, by decide, by decide, by decide, by decide, by decide⟩,
    SetupURI_injective 2 2 (str "ABCD") (str "ABCD") (str "00000012") (str "12")
      (by decide) (by decide) (by decide) (by decide) (by decide) (by decide) (by decide)⟩

/-- C19: for a receiver with empty `SetupId` and `Pin`, a value `r < 0xffff`
drawn for the setup-id and a value `q < 99999999` drawn for the PIN: the
generated `SetupId` has exactly 4 bytes, each in `0-9` or `A-F`; the generated
`Pin` has exactly 8 bytes, all decimal digits, denoting `q`, and `q < 2 ^ 27`;
so the transport-flags field of the packed value is 2 and the URI `SetupUri`
returns has length 20. -/
theorem generated_identity {Acc : Type} (s : DynamicServer Acc) (r q : Nat)
    (hid : s.SetupId = []) (hpin : s.Pin = []) (hr : r < 0xffff) (hq : q < 99999999) :
    (SetupUri s r q).1.SetupId.length = 4 ∧
      (∀ b ∈ (SetupUri s r q).1.SetupId, isUpperHex b) ∧
      (SetupUri s r q).1.Pin.length = 8 ∧
      (∀ b ∈ (SetupUri s r q).1.Pin, isDigit b) ∧
      decVal (SetupUri s r q).1.Pin = q ∧ q < 2 ^ 27 ∧
      flagsField (packValue s.BridgeType (SetupUri s r q).1.Pin) = 2 ∧
      (SetupUri s r q).2.map List.length = some 20 := by
  have hkeep := resolveIdentity_keeps s r q
  have hsid : (SetupUri s r q).1.SetupId = ToUpper (Sprintf04x r) := hkeep.2.2.1 hid
  have hspin : (SetupUri s r q).1.Pin = Sprintf08d q := hkeep.2.2.2.1 hpin
  have hbt : (resolveIdentity s r q).BridgeType = s.BridgeType := hkeep.2.2.2.2.1
  have hshape := genSetupId_shape r hr
  have hpshape := genPin_shape q hq
  have hq27 : q < 2 ^ 27 := by norm_num; omega
  have hne : Sprintf08d q ≠ [] := fmtInteger_ne_nil q 10 8
  have hdec : decVal (Sprintf08d q) < 2 ^ 27 := by rw [hpshape.2.2]; exact hq27
  have hlen := padded_length (packValue (resolveIdentity s r q).BridgeType
    (resolveIdentity s r q).Pin) (packValue_lt_pow36 _ _)
  refine ⟨by rw [hsid]; exact hshape.1, by rw [hsid]; exact hshape.2,
    by rw [hspin]; exact hpshape.1, by rw [hspin]; exact hpshape.2.1,
    by rw [hspin]; exact hpshape.2.2, hq27, ?_, ?_⟩
  · rw [hspin, packValue_of_valid s.BridgeType _ hne hpshape.2.1 hdec]
    exact flagsField_of_valid s.BridgeType _ hdec
  · show (SetupURI (resolveIdentity s r q).BridgeType (resolveIdentity s r q).SetupId
        (resolveIdentity s r q).Pin).map List.length = some 20
    rw [SetupURI_eq]
    have hsid2 : (resolveIdentity s r q).SetupId.length = 4 := by
      have h := hshape.1
      rw [← hsid] at h
      exact h
    simp only [Option.map_some', List.length_append, hlen, hsid2]
    rfl

/-- Witness of C19: the draws `0xabc` and `1234567` give the setup-id `0ABC`
and the pin `01234567`. -/
theorem generated_identity_witness :
    (blankServer.SetupId = [] ∧ blankServer.Pin = [] ∧ 0xabc < 0xffff ∧
        1234567 < 99999999) ∧
      ((SetupUri blankServer 0xabc 1234567).1.SetupId.length = 4 ∧
        (∀ b ∈ (SetupUri blankServer 0xabc 1234567).1.SetupId, isUpperHex b) ∧
        (SetupUri blankServer 0xabc 1234567).1.Pin.length = 8 ∧
        (∀ b ∈ (SetupUri blankServer 0xabc 1234567).1.Pin, isDigit b) ∧
        decVal (SetupUri blankServer 0xabc 1234567).1.Pin = 1234567 ∧ 1234567 < 2 ^ 27 ∧
        flagsField (packValue blankServer.BridgeType
          (SetupUri blankServer 0xabc 1234567).1.Pin) = 2 ∧
        (SetupUri blankServer 0xabc 1234567).2.map List.length = some 20) :=
  ⟨⟨rfl, rfl, by decide, by decide⟩,
    generated_identity blankServer 0xabc 1234567 rfl rfl (by decide) (by decide)⟩

end Hapserver
